import Mathlib

/-!
Verification of the virtual hierarchical namespace engine
(`src/services/VirtualFileSystem.js`).

The filesystem tree, the cursor, and every operation the claims touch are
shallowly embedded below.  JavaScript objects holding the children of a
directory become association lists (`Children`); JS `Date` values become the
`JTime.date` constructor over an abstract tick counter (`new Date()` is passed
in as an explicit `now : Nat` argument); fields that a seeded node never sets
(and that `JSON.stringify` would drop) are `Option`s.  In-place mutation
through the parent reference returned by `_getParentAndBasename` is embedded
as a functional rebuild along the resolved component list
(`modifyAtParent`): the source performs a single mutating assignment after
all of its checks, and `modifyAtParent` applies the corresponding pure
transformer at exactly that point.
-/

/-- A JavaScript value occupying a `created`/`modified` slot: either a live
`Date` (abstracted to a tick count) or a string (as found after a JSON
round trip). -/
inductive JTime where
  | date (t : Nat)
  | str (s : String)
deriving DecidableEq

mutual
/-- A node of the tree: `file` and `dir` mirror the object shapes
`{type:'file', content, permissions?, size?, created?, modified?}` and
`{type:'directory', children, permissions?, size?, created?, modified?}`.
Optional fields are absent on several seeded nodes. -/
inductive Node where
  | file (content : String) (permissions : Option String) (size : Option Nat)
         (created modified : Option JTime) : Node
  | dir (children : Children) (permissions : Option String) (size : Option Nat)
        (created modified : Option JTime) : Node

/-- The children map of a directory, in JS-object insertion order.  (JS
enumerates integer-like keys first; none of the claims depends on
enumeration order, and the names involved here are not integer-like.) -/
inductive Children where
  | nil : Children
  | cons (name : String) (node : Node) (rest : Children) : Children
end

/-- The engine state: `fileSystem['/']` plus the working-directory cursor. -/
structure VFS where
  root : Node
  currentPath : String

instance : Inhabited Node := ⟨Node.dir Children.nil none none none none⟩

/-- `children[name]` (property read). -/
def getKey : Children → String → Option Node
  | Children.nil, _ => none
  | Children.cons k v rest, name => if k = name then some v else getKey rest name

/-- `children[name] = node` (property write: replaces in place, or appends a
new key at the end, as JS objects do). -/
def setKey : Children → String → Node → Children
  | Children.nil, name, node => Children.cons name node Children.nil
  | Children.cons k v rest, name, node =>
      if k = name then Children.cons k node rest
      else Children.cons k v (setKey rest name node)

/-- `delete children[name]`. -/
def delKey : Children → String → Children
  | Children.nil, _ => Children.nil
  | Children.cons k v rest, name =>
      if k = name then rest else Children.cons k v (delKey rest name)

/-- `Object.keys(children).length`. -/
def chLength : Children → Nat
  | Children.nil => 0
  | Children.cons _ _ rest => chLength rest + 1

/-- `Object.keys(children)`. -/
def keysList : Children → List String
  | Children.nil => []
  | Children.cons k _ rest => k :: keysList rest

/-- `node.type === 'directory'`. -/
def isDirN : Node → Bool
  | Node.dir _ _ _ _ _ => true
  | Node.file _ _ _ _ _ => false

/-- `node.created` (works on files and directories alike). -/
def nodeCreated : Node → Option JTime
  | Node.file _ _ _ c _ => c
  | Node.dir _ _ _ c _ => c

/-- `node.modified`. -/
def nodeModified : Node → Option JTime
  | Node.file _ _ _ _ m => m
  | Node.dir _ _ _ _ m => m

/-- `node.permissions`. -/
def nodePerms : Node → Option String
  | Node.file _ p _ _ _ => p
  | Node.dir _ p _ _ _ => p

/-- `node.size`. -/
def nodeSize : Node → Option Nat
  | Node.file _ _ s _ _ => s
  | Node.dir _ _ s _ _ => s

/-- `node.content` for files. -/
def nodeContent : Node → Option String
  | Node.file c _ _ _ _ => some c
  | Node.dir _ _ _ _ _ => none

/-- JS `String.prototype.startsWith`. -/
def strStarts (s pre : String) : Bool := List.isPrefixOf pre.data s.data

/-- JS `s.endsWith('/')`, specialised to one character. -/
def endsSlash (s : String) : Bool := s.data.getLast? = some '/'

/-- JS `s.slice(1)` (used to model `path.replace('~', home)` on a path known
to start with `~`). -/
def strDropOne (s : String) : String := String.mk (s.data.drop 1)

/-- JS `s.split('/')`, accumulator-style over the character list. -/
def splitSlashAux : List Char → List Char → List String
  | [], acc => [String.mk acc.reverse]
  | c :: rest, acc =>
      if c = '/' then String.mk acc.reverse :: splitSlashAux rest []
      else splitSlashAux rest (c :: acc)

/-- JS `s.split('/')`. -/
def splitSlash (s : String) : List String := splitSlashAux s.data []

/-- `s.split('/').filter(c => c !== '')`. -/
def filteredComps (s : String) : List String := (splitSlash s).filter (fun c => c ≠ "")

/-- JS `array.join('/')`. -/
def joinSlash : List String → String
  | [] => ""
  | [x] => x
  | x :: xs => x ++ "/" ++ joinSlash xs

/-- One iteration of the loop body of `_joinPaths`: skip empty and `.`
components, pop the accumulated result on `..`, append otherwise. -/
def stepJoin (result component : String) : String :=
  if component = "" ∨ component = "." then result
  else if component = ".." then
    let rc := filteredComps result
    let rc2 := if rc.length > 0 then rc.dropLast else rc
    "/" ++ joinSlash rc2
  else result ++ (if endsSlash result then "" else "/") ++ component

/-- `_joinPaths(basePath, relativePath)`. -/
def joinPaths (basePath relativePath : String) : String :=
  if relativePath = "." then basePath
  else (splitSlash relativePath).foldl stepJoin basePath

/-- `_parsePath(path)` against a cursor `cwd`: `~` expansion, relative-path
joining, then split-and-filter into components. -/
def parsePath (cwd path : String) : List String :=
  let path1 := if path = "~" ∨ strStarts path "~/" then "/home/user" ++ strDropOne path else path
  let absolutePath := if strStarts path1 "/" then path1 else joinPaths cwd path1
  filteredComps absolutePath

/-- The traversal loop of `_getNodeAtPath`: `done` holds the components
already consumed (`components.slice(0, i)`), used in the error message. -/
def walkFrom (done : List String) (n : Node) : List String → Except String Node
  | [] => Except.ok n
  | c :: rest =>
      match n with
      | Node.file _ _ _ _ _ =>
          Except.error ("'" ++ joinSlash done ++ "' is not a directory")
      | Node.dir ch _ _ _ _ =>
          match getKey ch c with
          | none => Except.error ("'" ++ c ++ "' does not exist")
          | some child => walkFrom (done ++ [c]) child rest

/-- `_getNodeAtPath(path)`. -/
def getNodeAtPath (fs : VFS) (path : String) : Except String Node :=
  if path = "/" then Except.ok fs.root
  else walkFrom [] fs.root (parsePath fs.currentPath path)

/-- Does `path` resolve to an existing directory node in `fs`? -/
def isDirAt (fs : VFS) (path : String) : Bool :=
  match getNodeAtPath fs path with
  | Except.ok n => isDirN n
  | Except.error _ => false

/-- `fileExists(path).exists`: the operation itself never errors. -/
def fileExists (fs : VFS) (path : String) : Bool :=
  match getNodeAtPath fs path with
  | Except.ok _ => true
  | Except.error _ => false

/-- `components.pop()`: the basename of a resolved path.  JS `pop()` on an
empty array yields `undefined`, which object indexing coerces to the property
key `"undefined"`. -/
def mkBasename (comps : List String) : String := comps.getLast?.getD "undefined"

/-- The traversal of `_getParentAndBasename` fused with the single mutating
assignment the caller performs through the returned parent reference: walk
`comps` (the components with the basename popped off), requiring every step
to be an existing directory child (`Directory does not exist: c` otherwise),
then apply the caller's transformer `f` to the parent, rebuilding the
spine.  `f` returns the replacement parent plus the success message; an
error from `f` (a check the caller makes before its one assignment) leaves
the tree untouched. -/
def modifyAtParent (f : Node → Except String (Node × String)) :
    Node → List String → Except String (Node × String)
  | n, [] => f n
  | n, c :: rest =>
      match n with
      | Node.file _ _ _ _ _ => Except.error ("Directory does not exist: " ++ c)
      | Node.dir ch p s cr m =>
          match getKey ch c with
          | some child =>
              if isDirN child then
                match modifyAtParent f child rest with
                | Except.ok (child2, out) =>
                    Except.ok (Node.dir (setKey ch c child2) p s cr m, out)
                | Except.error e => Except.error e
              else Except.error ("Directory does not exist: " ++ c)
          | none => Except.error ("Directory does not exist: " ++ c)

/-- The body of `makeDirectory` acting on the resolved parent. -/
def makeDirF (now : Nat) (basename : String) : Node → Except String (Node × String)
  | Node.file _ _ _ _ _ => Except.error "Cannot create directory: parent is not a directory"
  | Node.dir ch p s cr m =>
      if (getKey ch basename).isSome then
        Except.error ("Cannot create directory '" ++ basename ++ "': File exists")
      else
        Except.ok (Node.dir
          (setKey ch basename
            (Node.dir Children.nil (some "drwxr-xr-x") (some 0)
              (some (JTime.date now)) (some (JTime.date now)))) p s cr m,
          "Directory created: " ++ basename)

/-- `makeDirectory(path)`; `now` stands for `new Date()`. -/
def makeDirectory (fs : VFS) (now : Nat) (path : String) : Except String String × VFS :=
  let comps := parsePath fs.currentPath path
  match modifyAtParent (makeDirF now (mkBasename comps)) fs.root comps.dropLast with
  | Except.error e => (Except.error e, fs)
  | Except.ok (root2, msg) => (Except.ok msg, { fs with root := root2 })

/-- The body of `createFile` acting on the resolved parent:
`created` is preserved from any pre-existing node (file or directory), with
`|| now` supplying the fallback when that node has no `created` field. -/
def createFileF (now : Nat) (basename content : String) :
    Node → Except String (Node × String)
  | Node.file _ _ _ _ _ => Except.error "Cannot create file: parent is not a directory"
  | Node.dir ch p s cr m =>
      let existing := getKey ch basename
      let created : JTime :=
        match existing with
        | some ex => (nodeCreated ex).getD (JTime.date now)
        | none => JTime.date now
      Except.ok (Node.dir
        (setKey ch basename
          (Node.file content (some "rw-r--r--") (some content.data.length)
            (some created) (some (JTime.date now)))) p s cr m,
        (if existing.isSome then "File updated: " else "File created: ") ++ basename)

/-- `createFile(path, content = '')`. -/
def createFile (fs : VFS) (now : Nat) (path : String) (content : String) :
    Except String String × VFS :=
  let comps := parsePath fs.currentPath path
  match modifyAtParent (createFileF now (mkBasename comps) content) fs.root comps.dropLast with
  | Except.error e => (Except.error e, fs)
  | Except.ok (root2, msg) => (Except.ok msg, { fs with root := root2 })

/-- The body of `writeFile` acting on the resolved parent: `fileExists` is
true only when the existing child is a *file*; only then are its
`permissions` and `created` carried over.  (A file parent would make the
source throw a `TypeError` reading `parent.children`; that path is
unreachable, the parent walk only ever lands on directories.) -/
def writeFileF (now : Nat) (basename content : String) :
    Node → Except String (Node × String)
  | Node.file _ _ _ _ _ =>
      Except.error ("Cannot read properties of undefined (reading '" ++ basename ++ "')")
  | Node.dir ch p s cr m =>
      let node : Node :=
        match getKey ch basename with
        | some (Node.file _ pf _ cf _) =>
            Node.file content pf (some content.data.length) cf (some (JTime.date now))
        | _ =>
            Node.file content (some "rw-r--r--") (some content.data.length)
              (some (JTime.date now)) (some (JTime.date now))
      Except.ok (Node.dir (setKey ch basename node) p s cr m, "File written: " ++ basename)

/-- `writeFile(path, content)`. -/
def writeFile (fs : VFS) (now : Nat) (path : String) (content : String) :
    Except String String × VFS :=
  let comps := parsePath fs.currentPath path
  match modifyAtParent (writeFileF now (mkBasename comps) content) fs.root comps.dropLast with
  | Except.error e => (Except.error e, fs)
  | Except.ok (root2, msg) => (Except.ok msg, { fs with root := root2 })

/-- `Object.keys(node.children).length` for the emptiness test in `remove`
(only ever reached on directory nodes). -/
def childCount : Node → Nat
  | Node.dir ch _ _ _ _ => chLength ch
  | Node.file _ _ _ _ _ => 0

/-- The body of `remove` acting on the resolved parent: missing child errors;
a non-empty directory child without `recursive` errors `NotEmpty`; otherwise
the single `delete` fires. -/
def removeF (basename : String) (recursive : Bool) : Node → Except String (Node × String)
  | Node.file _ _ _ _ _ =>
      Except.error ("Cannot read properties of undefined (reading '" ++ basename ++ "')")
  | Node.dir ch p s cr m =>
      match getKey ch basename with
      | none => Except.error ("Cannot remove '" ++ basename ++ "': No such file or directory")
      | some node =>
          if isDirN node && !recursive && !(childCount node = 0) then
            Except.error ("Cannot remove '" ++ basename ++
              "': Directory not empty (use -r for recursive deletion)")
          else Except.ok (Node.dir (delKey ch basename) p s cr m, "Removed: " ++ basename)

/-- `remove(path, recursive = false)`. -/
def remove (fs : VFS) (path : String) (recursive : Bool) : Except String String × VFS :=
  let comps := parsePath fs.currentPath path
  match modifyAtParent (removeF (mkBasename comps) recursive) fs.root comps.dropLast with
  | Except.error e => (Except.error e, fs)
  | Except.ok (root2, msg) => (Except.ok msg, { fs with root := root2 })

/-- The local `targetPath` of `changeDirectory`: the resolved absolute
target of the general branch. -/
def cdTarget (fs : VFS) (path : String) : String :=
  if ¬ strStarts path "/" ∧ ¬ strStarts path "~" then joinPaths fs.currentPath path
  else if strStarts path "~" then "/home/user" ++ strDropOne path
  else path

/-- `changeDirectory(path)`: special cases for `/`, `~` and `..`, then the
general resolve-and-check branch over `cdTarget`.  Note that the `..` branch
issued at root returns success without touching the cursor, and that
`~`/`..` set the cursor without an existence check. -/
def changeDirectory (fs : VFS) (path : String) : Except String String × VFS :=
  if path = "/" then (Except.ok "Changed to /", { fs with currentPath := "/" })
  else if path = "~" then (Except.ok "Changed to /home/user", { fs with currentPath := "/home/user" })
  else if path = ".." then
    if (filteredComps fs.currentPath).length > 0 then
      (Except.ok ("Changed to " ++ ("/" ++ joinSlash (filteredComps fs.currentPath).dropLast)),
       { fs with currentPath := "/" ++ joinSlash (filteredComps fs.currentPath).dropLast })
    else (Except.ok "Changed to /", fs)
  else
    match getNodeAtPath fs (cdTarget fs path) with
    | Except.error e => (Except.error e, fs)
    | Except.ok node =>
        if isDirN node then
          (Except.ok ("Changed to " ++ cdTarget fs path),
           { fs with currentPath := cdTarget fs path })
        else (Except.error ("'" ++ path ++ "' is not a directory"), fs)

/-- The test `/^\d+$/.test(permissions)`. -/
def isAllDigits (s : String) : Bool :=
  !s.data.isEmpty && s.data.all (fun c => '0' ≤ c && c ≤ '9')

/-- The test `/^[rwx-]{9}$/.test(permissions)`. -/
def isSymbolicPerm (s : String) : Bool :=
  s.data.length = 9 && s.data.all (fun c => c = 'r' || c = 'w' || c = 'x' || c = '-')

/-- `parseInt(s, 8)` followed by coercion to a bit-test operand: the longest
octal-digit prefix is parsed; an empty prefix gives `NaN`, which JS bitwise
operators coerce to `0`, so it is modelled as `0` here. -/
def parseIntOct (s : String) : Nat :=
  (s.data.takeWhile (fun c => '0' ≤ c && c ≤ '7')).foldl
    (fun acc c => acc * 8 + (c.toNat - '0'.toNat)) 0

/-- One permission character: `perms & mask ? c : '-'`. -/
def permBit (v mask : Nat) (c : Char) : String :=
  if v.land mask ≠ 0 then String.mk [c] else "-"

/-- The numeric branch of `changePermissions`: nine bit tests joined into the
symbolic string. -/
def octalStrToSymbolic (s : String) : String :=
  let v := parseIntOct s
  permBit v 256 'r' ++ permBit v 128 'w' ++ permBit v 64 'x' ++
  permBit v 32 'r' ++ permBit v 16 'w' ++ permBit v 8 'x' ++
  permBit v 4 'r' ++ permBit v 2 'w' ++ permBit v 1 'x'

/-- The in-place `node.permissions = ...` assignment, as a rebuild along the
components that `_getNodeAtPath` resolved (a missing path leaves the tree
unchanged; `changePermissions` only reaches this after a successful lookup). -/
def updatePermsAt : Node → List String → String → Node
  | Node.file c _ s cr m, [], perm => Node.file c (some perm) s cr m
  | Node.dir ch _ s cr m, [], perm => Node.dir ch (some perm) s cr m
  | Node.file c p s cr m, _ :: _, _ => Node.file c p s cr m
  | Node.dir ch p s cr m, c :: rest, perm =>
      match getKey ch c with
      | some child => Node.dir (setKey ch c (updatePermsAt child rest perm)) p s cr m
      | none => Node.dir ch p s cr m

/-- `changePermissions(path, permissions)`. -/
def changePermissions (fs : VFS) (path : String) (permissions : String) :
    Except String String × VFS :=
  match getNodeAtPath fs path with
  | Except.error e => (Except.error e, fs)
  | Except.ok _ =>
      if isAllDigits permissions then
        let symbolic := octalStrToSymbolic permissions
        (Except.ok ("Changed permissions of " ++ path ++ " to " ++ symbolic),
         { fs with root := updatePermsAt fs.root (parsePath fs.currentPath path) symbolic })
      else if isSymbolicPerm permissions then
        (Except.ok ("Changed permissions of " ++ path ++ " to " ++ permissions),
         { fs with root := updatePermsAt fs.root (parsePath fs.currentPath path) permissions })
      else (Except.error "Invalid permission format", fs)

/-- The test of the regex built by `findFiles` — `'^'` plus the pattern with
every `*` replaced by `.*` and every `?` by `.`, plus `'$'` — against a
name.  Modelled for patterns whose characters carry no regex meaning beyond
`*`, `?` and `.`, on names without newline characters: `*` matches any run
of characters, and `?` and `.` (a regex metacharacter the source does not
escape) each match exactly one character; every other character matches
itself. -/
def matchPat : List Char → List Char → Bool
  | [], s => s.isEmpty
  | '*' :: ps, s => s.tails.any (fun t => matchPat ps t)
  | '?' :: _, [] => false
  | '?' :: ps, _ :: s => matchPat ps s
  | '.' :: _, [] => false
  | '.' :: ps, _ :: s => matchPat ps s
  | _ :: _, [] => false
  | p :: ps, c :: s => p = c && matchPat ps s

/-- The glob-lite semantics as the specification words it: only `*` (any run)
and `?` (exactly one character) are wildcards; **all** other characters,
including `.`, match literally.  Stated from the spec, for comparison with
the source's `matchPat`. -/
def specGlobLite : List Char → List Char → Bool
  | [], s => s.isEmpty
  | '*' :: ps, s => s.tails.any (fun t => specGlobLite ps t)
  | '?' :: _, [] => false
  | '?' :: ps, _ :: s => specGlobLite ps s
  | _ :: _, [] => false
  | p :: ps, c :: s => p = c && specGlobLite ps s

mutual
/-- The recursive `findMatchingFiles(node, currentPath)` helper of
`findFiles`: visit every child, record its path when its *name* matches,
recurse into directories. -/
def findAll (pat : String → Bool) : Node → String → List String
  | Node.file _ _ _ _ _, _ => []
  | Node.dir ch _ _ _ _, currentPath => findAllCh pat ch currentPath

/-- `findMatchingFiles`, iterating the children list. -/
def findAllCh (pat : String → Bool) : Children → String → List String
  | Children.nil, _ => []
  | Children.cons name item rest, currentPath =>
      let itemPath := currentPath ++ (if currentPath = "/" then "" else "/") ++ name
      ((if pat name then [itemPath] else []) ++
        (match item with
         | Node.dir _ _ _ _ _ => findAll pat item itemPath
         | Node.file _ _ _ _ _ => [])) ++ findAllCh pat rest currentPath
end

mutual
/-- Every proper descendant of a node as a `(name, absolute path)` pair, in
the visit order of `findMatchingFiles` (specification device used to state
what `findFiles` returns). -/
def descendN : Node → String → List (String × String)
  | Node.file _ _ _ _ _, _ => []
  | Node.dir ch _ _ _ _, currentPath => descendCh ch currentPath

/-- `descendN`, iterating the children list. -/
def descendCh : Children → String → List (String × String)
  | Children.nil, _ => []
  | Children.cons name item rest, currentPath =>
      let itemPath := currentPath ++ (if currentPath = "/" then "" else "/") ++ name
      (name, itemPath) :: (descendN item itemPath ++ descendCh rest currentPath)
end

/-- `findFiles(startDir, pattern)`.  The name test is the `matchPat` model
of the translated regex, so this definition is faithful only for patterns
within `modelledPat` and names within `nlFreeName`; in particular the
source's `catch` branch for patterns whose translated regex fails to
compile (`new RegExp` throwing on e.g. `(`) lies outside the model — such
patterns contain a `regexMeta` character. -/
def findFiles (fs : VFS) (startDir pattern : String) : Except String (List String) :=
  match getNodeAtPath fs startDir with
  | Except.error e => Except.error e
  | Except.ok n =>
      if isDirN n then
        Except.ok (findAll (fun name => matchPat pattern.data name.data) n
          (if startDir = "/" then "/" else startDir))
      else Except.error ("'" ++ startDir ++ "' is not a directory")

/-- Content of the seeded `welcome.txt`. -/
def welcomeText : String :=
  "Welcome to the Virtual OS Simulator!\nType \"help\" to see available commands."

/-- Children of the seeded `/home/user`. -/
def seedUserCh : Children :=
  Children.cons "Documents" (Node.dir Children.nil none none none none)
    (Children.cons "Pictures" (Node.dir Children.nil none none none none)
      (Children.cons "welcome.txt"
        (Node.file welcomeText (some "rw-r--r--") (some 72)
          (some (JTime.date 0)) (some (JTime.date 0))) Children.nil))

/-- Children of the seeded `/home`. -/
def seedHomeCh : Children :=
  Children.cons "user" (Node.dir seedUserCh none none none none) Children.nil

/-- Children of the seeded `/bin`. -/
def seedBinCh : Children :=
  Children.cons "ls" (Node.file "#!/bin/bash\n# ls binary" (some "rwxr-xr-x") none none none)
    (Children.cons "mkdir" (Node.file "#!/bin/bash\n# mkdir binary" (some "rwxr-xr-x") none none none)
      (Children.cons "rm" (Node.file "#!/bin/bash\n# rm binary" (some "rwxr-xr-x") none none none)
        Children.nil))

/-- Children of the seeded `/etc`. -/
def seedEtcCh : Children :=
  Children.cons "passwd"
    (Node.file "root:x:0:0:root:/root:/bin/bash\nuser:x:1000:1000:user:/home/user:/bin/bash"
      (some "rw-r--r--") none none none)
    (Children.cons "hostname" (Node.file "virtual-os" (some "rw-r--r--") none none none)
      Children.nil)

/-- Children of the seeded root. -/
def seedRootCh : Children :=
  Children.cons "home" (Node.dir seedHomeCh none none none none)
    (Children.cons "bin" (Node.dir seedBinCh none none none none)
      (Children.cons "etc" (Node.dir seedEtcCh none none none none)
        (Children.cons "tmp" (Node.dir Children.nil none none none none) Children.nil)))

/-- The bootstrap tree built by the constructor when nothing was persisted
(the two `new Date()` calls on `welcome.txt` are both tick `0`). -/
def seedRoot : Node := Node.dir seedRootCh none none none none

/-- The bootstrap engine state: seeded tree, cursor `/home/user`. -/
def seedFS : VFS := { root := seedRoot, currentPath := "/home/user" }

mutual
/-- A JavaScript runtime value, as far as the persisted state needs: strings,
numbers, `Date` objects and plain objects with ordered string keys. -/
inductive JVal : Type where
  | str (s : String)
  | num (n : Nat)
  | date (t : Nat)
  | obj (fields : JFields)

/-- The ordered field list of a JS object. -/
inductive JFields : Type where
  | fnil : JFields
  | fcons (k : String) (v : JVal) (rest : JFields) : JFields
end

/-- Field read `o[k]` on an object field list. -/
def getFld : JFields → String → Option JVal
  | JFields.fnil, _ => none
  | JFields.fcons k v rest, key => if k = key then some v else getFld rest key

/-- The ISO-8601 rendering `JSON.stringify` applies to a `Date` (via
`Date.prototype.toJSON`), abstracted to an injective rendering of the tick
counter. -/
def isoOf (t : Nat) : String := Nat.repr t

/-- `new Date(s)` on a rendered timestamp string: recovers the tick counter
(decimal re-parse, the inverse of `isoOf`). -/
def parseIso (s : String) : Nat :=
  s.data.foldl (fun a c => a * 10 + (c.toNat - '0'.toNat)) 0

/-- `new Date(x)` as applied by `_restoreDates` to a truthy field value. -/
def newDateJ : JVal → JVal
  | JVal.str s => JVal.date (parseIso s)
  | JVal.date t => JVal.date t
  | JVal.num n => JVal.date n
  | JVal.obj f => JVal.obj f

/-- JS truthiness of a field value (`if (node.created) ...`). -/
def truthyJ : JVal → Bool
  | JVal.str s => s ≠ ""
  | JVal.num n => n ≠ 0
  | JVal.date _ => true
  | JVal.obj _ => true

mutual
/-- `JSON.parse(JSON.stringify(v))`: `Date`s become their ISO strings, all
other structure survives the text round trip unchanged. -/
def jsonRound : JVal → JVal
  | JVal.date t => JVal.str (isoOf t)
  | JVal.obj fields => JVal.obj (jsonRoundF fields)
  | JVal.str s => JVal.str s
  | JVal.num n => JVal.num n

/-- `jsonRound` over an object's fields. -/
def jsonRoundF : JFields → JFields
  | JFields.fnil => JFields.fnil
  | JFields.fcons k v rest => JFields.fcons k (jsonRound v) (jsonRoundF rest)
end

/-- Does the object look like a directory node to `_restoreDates`
(`node.type === 'directory' && node.children`)? -/
def isDirObj (fields : JFields) : Bool :=
  (match getFld fields "type" with
   | some (JVal.str s) => s = "directory"
   | _ => false) &&
  (match getFld fields "children" with
   | some v => truthyJ v
   | none => false)

mutual
/-- `_restoreDates(node)`: convert truthy `created`/`modified` fields with
`new Date(...)`, and recurse into `node.children` only when
`node.type === 'directory'`.  Called by `_loadFromLocalStorage` on
`parsedData.fileSystem` — the `{'/': root}` wrapper object. -/
def restoreDates : JVal → JVal
  | JVal.obj fields => JVal.obj (restoreFields (isDirObj fields) fields)
  | v => v

/-- Field-wise action of `_restoreDates` on one object: date fields are
re-wrapped, and when the object is a directory node its `children` object
has `_restoreDates` applied to each child value. -/
def restoreFields (isDir : Bool) : JFields → JFields
  | JFields.fnil => JFields.fnil
  | JFields.fcons k v rest =>
      let v2 :=
        if (k = "created" ∨ k = "modified") && truthyJ v then newDateJ v
        else if isDir && k = "children" then restoreKidsVal v
        else v
      JFields.fcons k v2 (restoreFields isDir rest)

/-- The `for (const [_, child] of Object.entries(node.children))` loop:
apply `_restoreDates` to every child value of the children object. -/
def restoreKidsVal : JVal → JVal
  | JVal.obj kids => JVal.obj (restoreKids kids)
  | v => v

/-- `restoreKidsVal`, iterating the fields. -/
def restoreKids : JFields → JFields
  | JFields.fnil => JFields.fnil
  | JFields.fcons k v rest => JFields.fcons k (restoreDates v) (restoreKids rest)
end

/-- A field that is present only when the node carries it. -/
def optFld (k : String) (v : Option JVal) (rest : JFields) : JFields :=
  match v with
  | some x => JFields.fcons k x rest
  | none => rest

/-- A `created`/`modified` slot as a JS value. -/
def timeJVal : JTime → JVal
  | JTime.date t => JVal.date t
  | JTime.str s => JVal.str s

mutual
/-- The in-memory JS object a `Node` is (property insertion order follows the
object literals of the source; fields never assigned are absent, exactly the
fields `JSON.stringify` would omit). -/
def toJVal : Node → JVal
  | Node.file content perms size created modified =>
      JVal.obj (JFields.fcons "type" (JVal.str "file")
        (JFields.fcons "content" (JVal.str content)
          (optFld "permissions" (perms.map JVal.str)
            (optFld "size" (size.map JVal.num)
              (optFld "created" (created.map timeJVal)
                (optFld "modified" (modified.map timeJVal) JFields.fnil))))))
  | Node.dir ch perms size created modified =>
      JVal.obj (JFields.fcons "type" (JVal.str "directory")
        (JFields.fcons "children" (JVal.obj (toJValCh ch))
          (optFld "permissions" (perms.map JVal.str)
            (optFld "size" (size.map JVal.num)
              (optFld "created" (created.map timeJVal)
                (optFld "modified" (modified.map timeJVal) JFields.fnil))))))

/-- The children object of a directory node. -/
def toJValCh : Children → JFields
  | Children.nil => JFields.fnil
  | Children.cons k v rest => JFields.fcons k (toJVal v) (toJValCh rest)
end

/-- The value saved by `_saveToLocalStorage`: the deep-cloned (hence
date-stringified) `{'/': root}` map, beside the cursor. -/
def fileSystemJVal (root : Node) : JVal :=
  JVal.obj (JFields.fcons "/" (toJVal root) JFields.fnil)

/-- `_loadFromLocalStorage` applied to what `_saveToLocalStorage` wrote for
`(root, cursor)`: parse the blob (undoing `stringify`), call `_restoreDates`
on the `fileSystem` *wrapper* object, and hand back the pair the constructor
installs. -/
def loadSaved (root : Node) (cursor : String) : JVal × String :=
  (restoreDates (jsonRound (fileSystemJVal root)), cursor)

/-- Read a chain of fields out of nested objects (specification device for
inspecting load results). -/
def jpath : JVal → List String → Option JVal
  | v, [] => some v
  | JVal.obj fields, k :: rest =>
      match getFld fields k with
      | some v => jpath v rest
      | none => none
  | _, _ :: _ => none

/-- The `node.permissions = perm` assignment on a node value. -/
def setPermsN : Node → String → Node
  | Node.file c _ s cr m, perm => Node.file c (some perm) s cr m
  | Node.dir ch _ s cr m, perm => Node.dir ch (some perm) s cr m

/-- `changeDirectory("..")` iterated `n` times. -/
def cdUpIter (fs : VFS) : Nat → VFS
  | 0 => fs
  | n + 1 => cdUpIter (changeDirectory fs "..").2 n

/-- The specification's octal-mode validation — exactly 3 digits, each 0–7.
Stated from the spec's words, for comparison with the source's `isAllDigits`
guard. -/
def specOctalValid (s : String) : Bool :=
  s.data.length = 3 && s.data.all (fun c => '0' ≤ c && c ≤ '7')

/-- The children of `/x/y` in the spec's `findFiles` example. -/
def exYCh : Children :=
  Children.cons "b.txt" (Node.file "" none none none none)
    (Children.cons "c.md" (Node.file "" none none none none) Children.nil)

/-- The children of `/x` in the spec's `findFiles` example. -/
def exXCh : Children :=
  Children.cons "a.txt" (Node.file "" none none none none)
    (Children.cons "y" (Node.dir exYCh none none none none) Children.nil)

/-- The spec's `findFiles` example state: files `/x/a.txt`, `/x/y/b.txt`,
`/x/y/c.md`. -/
def exFindFS : VFS :=
  { root := Node.dir (Children.cons "x" (Node.dir exXCh none none none none) Children.nil)
      none none none none,
    currentPath := "/" }

/-- A state holding a single file named `axtxt`, separating the source's
regex semantics of `.` from the spec's literal-`.` glob semantics. -/
def axtxtFS : VFS :=
  { root := Node.dir (Children.cons "axtxt" (Node.file "" none none none none) Children.nil)
      none none none none,
    currentPath := "/" }

/-- The `RegExp` metacharacters whose regex meaning the `matchPat` model does
*not* reproduce: `\\ ^ $ + ( ) [ ] | \x7b \x7d`.  (The remaining
metacharacters `*`, `?` and `.` are exactly the ones `matchPat` models
faithfully.)  A pattern containing none of these always compiles — the
source's `try`/`catch` around `new RegExp` can only fire outside this set. -/
def regexMeta : List Char := "\\^$+()[]|\x7b\x7d".data

/-- A pattern inside the model's scope: every character is one of the
modelled wildcards `*`, `?`, `.` or a character with no regex meaning. -/
def modelledPat (p : String) : Bool := p.data.all (fun c => !(c ∈ regexMeta))

/-- A name without JS line terminators (`\n`, `\r`, U+2028, U+2029), the
characters the regex `.` and `.*` refuse to match but the model's
single-character and any-run wildcards would accept. -/
def nlFreeName (s : String) : Bool :=
  s.data.all (fun c => !(c ∈ ['\n', '\r', '\u2028', '\u2029']))

/-- Every descendant entry name under a node is free of line terminators —
the name-side scope of the `matchPat` model. -/
def descendNamesOk (n : Node) (base : String) : Bool :=
  (descendN n base).all (fun x => nlFreeName x.1)

/-! ### Basic lemmas about the embedded JS primitives -/

theorem strData_append (a b : String) : (a ++ b).data = a.data ++ b.data := rfl

theorem strMk_data (s : String) : String.mk s.data = s := rfl

theorem getKey_setKey_self : (ch : Children) → (k : String) → (v : Node) →
    getKey (setKey ch k v) k = some v
  | Children.nil, k, v => by simp [setKey, getKey]
  | Children.cons k2 v2 rest, k, v => by
      by_cases h : k2 = k
      · simp [setKey, h, getKey]
      · simp [setKey, h, getKey, getKey_setKey_self rest k v]

theorem getKey_eq_none_of_not_mem : (ch : Children) → (k : String) →
    k ∉ keysList ch → getKey ch k = none
  | Children.nil, k, _ => rfl
  | Children.cons k2 v2 rest, k, h => by
      rw [keysList, List.mem_cons, not_or] at h
      rw [getKey, if_neg (fun hh => h.1 hh.symm)]
      exact getKey_eq_none_of_not_mem rest k h.2

theorem getKey_delKey_self : (ch : Children) → (k : String) →
    (keysList ch).Nodup → getKey (delKey ch k) k = none
  | Children.nil, k, _ => rfl
  | Children.cons k2 v2 rest, k, hnd => by
      rw [keysList, List.nodup_cons] at hnd
      by_cases h : k2 = k
      · subst h
        rw [delKey, if_pos rfl]
        exact getKey_eq_none_of_not_mem rest k2 hnd.1
      · rw [delKey, if_neg h, getKey, if_neg h]
        exact getKey_delKey_self rest k hnd.2

/-! ### Lemmas about the traversal and the fused mutation -/

theorem walkFrom_ok_acc (cs : List String) : ∀ (acc acc2 : List String) (n m : Node),
    walkFrom acc n cs = Except.ok m → walkFrom acc2 n cs = Except.ok m := by
  induction cs with
  | nil => intro acc acc2 n m h; simpa [walkFrom] using h
  | cons c rest ih =>
      intro acc acc2 n m h
      cases n with
      | file a b d e f => simp [walkFrom] at h
      | dir ch p s cr mo =>
          rw [walkFrom] at h ⊢
          cases hg : getKey ch c with
          | none => rw [hg] at h; simp at h
          | some child =>
              rw [hg] at h
              exact ih (acc ++ [c]) (acc2 ++ [c]) child m h

theorem walkFrom_append (a : List String) : ∀ (b acc : List String) (n m : Node),
    walkFrom acc n a = Except.ok m →
    walkFrom acc n (a ++ b) = walkFrom (acc ++ a) m b := by
  induction a with
  | nil => intro b acc n m h; simp [walkFrom] at h; simp [h]
  | cons c rest ih =>
      intro b acc n m h
      cases n with
      | file a1 b1 d1 e1 f1 => simp [walkFrom] at h
      | dir ch p s cr mo =>
          rw [walkFrom] at h
          rw [List.cons_append, walkFrom]
          cases hg : getKey ch c with
          | none => rw [hg] at h; simp at h
          | some child =>
              rw [hg] at h
              have h2 : walkFrom (acc ++ [c]) child rest = Except.ok m := h
              have h3 := ih b (acc ++ [c]) child m h2
              show walkFrom (acc ++ [c]) child (rest ++ b) = _
              rw [h3]
              simp

theorem isDirN_of_walk (cs : List String) (acc : List String) (n m : Node)
    (h : walkFrom acc n cs = Except.ok m) (hm : isDirN m = true) : isDirN n = true := by
  cases cs with
  | nil => simp [walkFrom] at h; rw [h]; exact hm
  | cons c rest =>
      cases n with
      | file a b d e f => simp [walkFrom] at h
      | dir ch p s cr mo => rfl

theorem modifyAtParent_ok (f : Node → Except String (Node × String)) :
    ∀ (pc : List String) (n n2 : Node) (out : String),
    modifyAtParent f n pc = Except.ok (n2, out) →
    ∃ p p2, (∀ acc, walkFrom acc n pc = Except.ok p) ∧ f p = Except.ok (p2, out) ∧
      (∀ rest acc, walkFrom acc n2 (pc ++ rest) = walkFrom (acc ++ pc) p2 rest) := by
  intro pc
  induction pc with
  | nil =>
      intro n n2 out h
      rw [modifyAtParent] at h
      exact ⟨n, n2, fun acc => by rw [walkFrom], h, fun rest acc => by simp⟩
  | cons c rest ih =>
      intro n n2 out h
      cases n with
      | file a b d e ff => rw [modifyAtParent] at h; simp at h
      | dir ch p s cr mo =>
          rw [modifyAtParent] at h
          cases hg : getKey ch c with
          | none => rw [hg] at h; simp at h
          | some child =>
              simp only [hg] at h
              by_cases hd : isDirN child
              · rw [if_pos hd] at h
                cases hm : modifyAtParent f child rest with
                | error e =>
                    simp only [hm] at h
                    exact Except.noConfusion h
                | ok pr =>
                    obtain ⟨child2, out2⟩ := pr
                    simp only [hm, Except.ok.injEq, Prod.mk.injEq] at h
                    obtain ⟨hn2, hout⟩ := h
                    obtain ⟨pp, pp2, hw, hf, hcont⟩ := ih child child2 out2 hm
                    refine ⟨pp, pp2, ?_, by rw [hf, hout], ?_⟩
                    · intro acc
                      rw [walkFrom, hg]
                      exact hw (acc ++ [c])
                    · intro rest2 acc
                      rw [← hn2, List.cons_append, walkFrom]
                      simp only [getKey_setKey_self]
                      rw [hcont rest2 (acc ++ [c])]
                      simp
              · rw [if_neg hd] at h
                exact Except.noConfusion h

theorem modifyAtParent_intro (f : Node → Except String (Node × String)) :
    ∀ (pc acc : List String) (n m p2 : Node) (out : String),
    walkFrom acc n pc = Except.ok m → isDirN m = true → f m = Except.ok (p2, out) →
    ∃ n2, modifyAtParent f n pc = Except.ok (n2, out) := by
  intro pc
  induction pc with
  | nil =>
      intro acc n m p2 out h hm hf
      rw [walkFrom] at h
      obtain rfl : n = m := by simpa using h
      exact ⟨p2, by rw [modifyAtParent]; exact hf⟩
  | cons c rest ih =>
      intro acc n m p2 out h hm hf
      cases n with
      | file a b d e g => simp [walkFrom] at h
      | dir ch p s cr mo =>
          rw [walkFrom] at h
          cases hg : getKey ch c with
          | none => rw [hg] at h; simp at h
          | some child =>
              rw [hg] at h
              have h2 : walkFrom (acc ++ [c]) child rest = Except.ok m := h
              have hcd : isDirN child = true := isDirN_of_walk rest (acc ++ [c]) child m h2 hm
              obtain ⟨n2, hn2⟩ := ih (acc ++ [c]) child m p2 out h2 hm hf
              refine ⟨Node.dir (setKey ch c n2) p s cr mo, ?_⟩
              rw [modifyAtParent, hg]
              simp only [hcd, if_true, hn2]

theorem modifyAtParent_intro_error (f : Node → Except String (Node × String)) :
    ∀ (pc acc : List String) (n m : Node) (e : String),
    walkFrom acc n pc = Except.ok m → isDirN m = true → f m = Except.error e →
    modifyAtParent f n pc = Except.error e := by
  intro pc
  induction pc with
  | nil =>
      intro acc n m e h hm hf
      rw [walkFrom] at h
      obtain rfl : n = m := by simpa using h
      rw [modifyAtParent]; exact hf
  | cons c rest ih =>
      intro acc n m e h hm hf
      cases n with
      | file a b d e2 g => simp [walkFrom] at h
      | dir ch p s cr mo =>
          rw [walkFrom] at h
          cases hg : getKey ch c with
          | none => rw [hg] at h; simp at h
          | some child =>
              rw [hg] at h
              have h2 : walkFrom (acc ++ [c]) child rest = Except.ok m := h
              have hcd : isDirN child = true := isDirN_of_walk rest (acc ++ [c]) child m h2 hm
              rw [modifyAtParent, hg]
              simp only [hcd, if_true, ih (acc ++ [c]) child m e h2 hm hf]

theorem walkFrom_dropLast : ∀ (cs acc : List String) (n m : Node),
    walkFrom acc n cs = Except.ok m → isDirN m = true →
    ∃ m2, walkFrom acc n cs.dropLast = Except.ok m2 ∧ isDirN m2 = true := by
  intro cs
  induction cs with
  | nil =>
      intro acc n m h hm
      rw [walkFrom] at h
      obtain rfl : n = m := by simpa using h
      exact ⟨n, by rw [List.dropLast_nil, walkFrom], hm⟩
  | cons c rest ih =>
      intro acc n m h hm
      cases n with
      | file a b d e g => simp [walkFrom] at h
      | dir ch p s cr mo =>
          rw [walkFrom] at h
          cases hg : getKey ch c with
          | none => rw [hg] at h; simp at h
          | some child =>
              rw [hg] at h
              have h2 : walkFrom (acc ++ [c]) child rest = Except.ok m := h
              cases rest with
              | nil =>
                  refine ⟨Node.dir ch p s cr mo, ?_, rfl⟩
                  simp [walkFrom]
              | cons d rest2 =>
                  obtain ⟨m2, hw, hm2⟩ := ih (acc ++ [c]) child m h2 hm
                  refine ⟨m2, ?_, hm2⟩
                  rw [show (c :: d :: rest2).dropLast = c :: (d :: rest2).dropLast from rfl]
                  rw [walkFrom, hg]
                  exact hw


theorem updatePermsAt_nil (n : Node) (perm : String) :
    updatePermsAt n [] perm = setPermsN n perm := by
  cases n <;> rfl

theorem walk_updatePermsAt : ∀ (cs acc : List String) (n m : Node) (perm : String),
    walkFrom acc n cs = Except.ok m →
    walkFrom acc (updatePermsAt n cs perm) cs = Except.ok (setPermsN m perm) := by
  intro cs
  induction cs with
  | nil =>
      intro acc n m perm h
      rw [walkFrom] at h
      obtain rfl : n = m := by simpa using h
      rw [updatePermsAt_nil, walkFrom]
  | cons c rest ih =>
      intro acc n m perm h
      cases n with
      | file a b d e g => simp [walkFrom] at h
      | dir ch p s cr mo =>
          rw [walkFrom] at h
          cases hg : getKey ch c with
          | none => rw [hg] at h; simp at h
          | some child =>
              rw [hg] at h
              have h2 : walkFrom (acc ++ [c]) child rest = Except.ok m := h
              rw [updatePermsAt, hg, walkFrom]
              simp only [getKey_setKey_self]
              exact ih (acc ++ [c]) child m perm h2

/-! ### Lemmas about splitting and joining path strings -/

theorem splitSlashAux_no_slash : ∀ (cs acc : List Char), (∀ c ∈ cs, c ≠ '/') →
    splitSlashAux cs acc = [String.mk (acc.reverse ++ cs)] := by
  intro cs
  induction cs with
  | nil => intro acc _; simp [splitSlashAux]
  | cons c r ih =>
      intro acc h
      rw [splitSlashAux, if_neg (h c (by simp))]
      rw [ih (c :: acc) (fun x hx => h x (by simp [hx]))]
      simp

theorem splitSlashAux_append : ∀ (cs rest acc : List Char), (∀ c ∈ cs, c ≠ '/') →
    splitSlashAux (cs ++ '/' :: rest) acc =
      String.mk (acc.reverse ++ cs) :: splitSlashAux rest [] := by
  intro cs
  induction cs with
  | nil => intro rest acc _; simp [splitSlashAux]
  | cons c r ih =>
      intro rest acc h
      rw [List.cons_append, splitSlashAux, if_neg (h c (by simp))]
      rw [ih rest (c :: acc) (fun x hx => h x (by simp [hx]))]
      simp

theorem splitSlashAux_pieces : ∀ (cs acc : List Char) (x : String), '/' ∉ acc →
    x ∈ splitSlashAux cs acc → '/' ∉ x.data := by
  intro cs
  induction cs with
  | nil =>
      intro acc x hacc hx
      rw [splitSlashAux] at hx
      simp only [List.mem_singleton] at hx
      subst hx
      simpa using hacc
  | cons c r ih =>
      intro acc x hacc hx
      rw [splitSlashAux] at hx
      by_cases hc : c = '/'
      · rw [if_pos hc] at hx
        rcases List.mem_cons.mp hx with h | h
        · subst h; simpa using hacc
        · exact ih [] x (by simp) h
      · rw [if_neg hc] at hx
        refine ih (c :: acc) x ?_ hx
        intro hmem
        rcases List.mem_cons.mp hmem with h2 | h2
        · exact hc h2.symm
        · exact hacc h2

theorem strData_ne_nil (x : String) (h : x ≠ "") : x.data ≠ [] := by
  intro hd
  apply h
  cases x with
  | mk d =>
      have hd2 : d = [] := hd
      subst hd2
      rfl

theorem joinSlash_filter : ∀ (l : List String), (∀ x ∈ l, x ≠ "" ∧ '/' ∉ x.data) →
    (splitSlashAux (joinSlash l).data []).filter (fun c => c ≠ "") = l := by
  intro l
  induction l with
  | nil => intro _; simp [joinSlash, splitSlashAux]
  | cons x xs ih =>
      intro h
      have hx := h x (by simp)
      have hxs : ∀ y ∈ xs, y ≠ "" ∧ '/' ∉ y.data := fun y hy => h y (by simp [hy])
      cases xs with
      | nil =>
          rw [joinSlash]
          rw [splitSlashAux_no_slash x.data [] (fun c hc h2 => hx.2 (h2 ▸ hc))]
          simp [strMk_data, hx.1]
      | cons y ys =>
          have hdata : (joinSlash (x :: y :: ys)).data =
              x.data ++ '/' :: (joinSlash (y :: ys)).data := by
            have h1 : joinSlash (x :: y :: ys) = x ++ "/" ++ joinSlash (y :: ys) := rfl
            rw [h1, strData_append, strData_append,
              show ("/" : String).data = ['/'] from rfl]
            simp
          rw [hdata]
          rw [splitSlashAux_append x.data _ [] (fun c hc h2 => hx.2 (h2 ▸ hc))]
          rw [List.filter_cons]
          simp only [List.reverse_nil, List.nil_append, strMk_data]
          rw [if_pos (by simpa using hx.1)]
          rw [ih hxs]

theorem filteredComps_abs_join (l : List String) (h : ∀ x ∈ l, x ≠ "" ∧ '/' ∉ x.data) :
    filteredComps ("/" ++ joinSlash l) = l := by
  unfold filteredComps splitSlash
  rw [strData_append, show ("/" : String).data = ['/'] from rfl]
  show (splitSlashAux ([] ++ '/' :: (joinSlash l).data) []).filter (fun c => c ≠ "") = l
  rw [splitSlashAux_append [] _ [] (by simp)]
  rw [List.filter_cons]
  rw [if_neg (by simp)]
  exact joinSlash_filter l h

theorem filteredComps_mem (s : String) (x : String) (hx : x ∈ filteredComps s) :
    x ≠ "" ∧ '/' ∉ x.data := by
  unfold filteredComps at hx
  have h1 := List.of_mem_filter hx
  have h2 := List.mem_of_mem_filter hx
  refine ⟨by simpa using h1, ?_⟩
  exact splitSlashAux_pieces s.data [] x (by simp) h2

theorem strStarts_slash_iff (s : String) : strStarts s "/" = true ↔ ∃ t, s.data = '/' :: t := by
  unfold strStarts
  rw [show ("/" : String).data = ['/'] from rfl]
  cases hs : s.data with
  | nil => simp [List.isPrefixOf]
  | cons c t =>
      simp only [List.isPrefixOf, Bool.and_eq_true, beq_iff_eq, List.cons.injEq]
      constructor
      · intro h; exact ⟨t, h.1.symm, rfl⟩
      · intro ⟨t2, h1, h2⟩; exact ⟨h1.symm, by simp [List.isPrefixOf]⟩

theorem not_tilde_of_slash (s : String) (h : strStarts s "/" = true) :
    ¬ (s = "~" ∨ strStarts s "~/" = true) := by
  obtain ⟨t, ht⟩ := (strStarts_slash_iff s).mp h
  rintro (h1 | h1)
  · rw [h1] at ht; simp at ht
  · unfold strStarts at h1
    rw [show ("~/" : String).data = ['~', '/'] from rfl, ht] at h1
    simp [List.isPrefixOf] at h1

theorem parsePath_abs (cwd s : String) (h : strStarts s "/" = true) :
    parsePath cwd s = filteredComps s := by
  unfold parsePath
  rw [if_neg (by simpa using not_tilde_of_slash s h)]
  show filteredComps (if strStarts s "/" = true then s else joinPaths cwd s) = filteredComps s
  rw [if_pos h]

theorem getNodeAtPath_cursor (root : Node) (c1 c2 p : String) (h : strStarts p "/" = true) :
    getNodeAtPath ⟨root, c1⟩ p = getNodeAtPath ⟨root, c2⟩ p := by
  unfold getNodeAtPath
  by_cases hp : p = "/"
  · rw [if_pos hp, if_pos hp]
  · rw [if_neg hp, if_neg hp]
    rw [show (VFS.mk root c1).currentPath = c1 from rfl,
        show (VFS.mk root c2).currentPath = c2 from rfl]
    rw [parsePath_abs c1 p h, parsePath_abs c2 p h]

theorem stepJoin_starts (r comp : String) (h : ∃ t, r.data = '/' :: t) :
    ∃ t, (stepJoin r comp).data = '/' :: t := by
  obtain ⟨t, ht⟩ := h
  unfold stepJoin
  by_cases h1 : comp = "" ∨ comp = "."
  · rw [if_pos h1]; exact ⟨t, ht⟩
  · rw [if_neg h1]
    by_cases h2 : comp = ".."
    · rw [if_pos h2]
      refine ⟨(joinSlash (if (filteredComps r).length > 0 then
        (filteredComps r).dropLast else filteredComps r)).data, ?_⟩
      rw [strData_append, show ("/" : String).data = ['/'] from rfl]
      rfl
    · rw [if_neg h2]
      refine ⟨t ++ ((if endsSlash r then "" else "/") ++ comp).data, ?_⟩
      rw [strData_append, strData_append, ht]
      simp

theorem foldl_stepJoin_starts (l : List String) : ∀ (r : String),
    (∃ t, r.data = '/' :: t) → ∃ t, (l.foldl stepJoin r).data = '/' :: t := by
  induction l with
  | nil => intro r h; exact h
  | cons a l2 ih => intro r h; exact ih (stepJoin r a) (stepJoin_starts r a h)

theorem joinPaths_starts (b rel : String) (h : ∃ t, b.data = '/' :: t) :
    ∃ t, (joinPaths b rel).data = '/' :: t := by
  unfold joinPaths
  by_cases h1 : rel = "."
  · rw [if_pos h1]; exact h
  · rw [if_neg h1]; exact foldl_stepJoin_starts (splitSlash rel) b h

/-! ### `findFiles` visits every descendant and filters on the entry name -/

mutual
theorem findAll_filter (pat : String → Bool) : (n : Node) → (base : String) →
    findAll pat n base = ((descendN n base).filter (fun x => pat x.1)).map (fun x => x.2)
  | Node.file a b c d e, _ => by rw [findAll, descendN]; rfl
  | Node.dir ch p s cr m, base => by
      rw [findAll, descendN]
      exact findAllCh_filter pat ch base

theorem findAllCh_filter (pat : String → Bool) : (ch : Children) → (base : String) →
    findAllCh pat ch base = ((descendCh ch base).filter (fun x => pat x.1)).map (fun x => x.2)
  | Children.nil, _ => by rw [findAllCh, descendCh]; rfl
  | Children.cons name item rest, base => by
      have h2 := findAllCh_filter pat rest base
      cases item with
      | file a b c d e =>
          rw [findAllCh, descendCh]
          by_cases hp : pat name
          · simp [hp, h2, findAll, descendN]
          · simp [hp, h2, findAll, descendN]
      | dir ch2 p2 s2 cr2 m2 =>
          have h1 := findAll_filter pat (Node.dir ch2 p2 s2 cr2 m2)
            (base ++ (if base = "/" then "" else "/") ++ name)
          rw [findAllCh, descendCh]
          by_cases hp : pat name
          · simp [hp, h1, h2, List.filter_append]
          · simp [hp, h1, h2, List.filter_append]
end

/-! ### Claim theorems -/

/-- Claim C8: `changeDirectory("..")` issued when the cursor is already `/`
succeeds and leaves the cursor at `/`; repeating it any number of times from
`/` always yields `/`.  The `..` branch finds no components to pop and
returns success without touching the state. -/
theorem C8_dotdot_at_root (fs : VFS) (h : fs.currentPath = "/") :
    changeDirectory fs ".." = (Except.ok "Changed to /", fs) ∧
    ∀ n, cdUpIter fs n = fs := by
  have hstep : changeDirectory fs ".." = (Except.ok "Changed to /", fs) := by
    unfold changeDirectory
    rw [if_neg (by decide), if_neg (by decide), if_pos rfl, h]
    rw [show filteredComps "/" = [] from rfl]
    simp
  refine ⟨hstep, ?_⟩
  intro n
  induction n with
  | zero => rfl
  | succ k ih =>
      rw [cdUpIter, hstep]
      exact ih

/-- Witness for C8 at the concrete state `⟨seedRoot, "/"⟩`. -/
theorem C8_dotdot_at_root_witness :
    changeDirectory ⟨seedRoot, "/"⟩ ".." = (Except.ok "Changed to /", ⟨seedRoot, "/"⟩) ∧
    ∀ n, cdUpIter ⟨seedRoot, "/"⟩ n = ⟨seedRoot, "/"⟩ :=
  C8_dotdot_at_root ⟨seedRoot, "/"⟩ rfl

/-- Counterexample to claim C4: `makeDirectory` succeeds on `/tmp/newdir` but
stores the 10-character permission string `drwxr-xr-x` (note the leading
`d`), not the claimed 9-character `rwxr-xr-x`. -/
theorem C4_cx :
    (makeDirectory seedFS 0 "/tmp/newdir").1 = Except.ok "Directory created: newdir" ∧
    (getNodeAtPath (makeDirectory seedFS 0 "/tmp/newdir").2 "/tmp/newdir").toOption.map nodePerms
      = some (some "drwxr-xr-x") ∧
    ¬ ("drwxr-xr-x" = "rwxr-xr-x") ∧ "drwxr-xr-x".data.length = 10 :=
  ⟨rfl, rfl, by decide, by decide⟩

/-- Claim C4 as amended: on success `makeDirectory` creates a Directory node
whose permissions are the 10-character string `drwxr-xr-x` (not `rwxr-xr-x`),
whose size is 0, and whose created and modified timestamps are both the call
time, hence equal; the cursor is untouched. -/
theorem C4_mkdir_defaults (fs : VFS) (now : Nat) (path : String) (msg : String) (fs2 : VFS)
    (h : makeDirectory fs now path = (Except.ok msg, fs2)) :
    walkFrom [] fs2.root ((parsePath fs.currentPath path).dropLast ++
        [mkBasename (parsePath fs.currentPath path)]) =
      Except.ok (Node.dir Children.nil (some "drwxr-xr-x") (some 0)
        (some (JTime.date now)) (some (JTime.date now))) ∧
    fs2.currentPath = fs.currentPath := by
  unfold makeDirectory at h
  cases hm : modifyAtParent (makeDirF now (mkBasename (parsePath fs.currentPath path)))
      fs.root (parsePath fs.currentPath path).dropLast with
  | error e => simp [hm] at h
  | ok pr =>
      obtain ⟨root2, out⟩ := pr
      simp only [hm, Prod.mk.injEq, Except.ok.injEq] at h
      obtain ⟨hmsg, hfs2⟩ := h
      obtain ⟨p, p2, hw, hf, hcont⟩ := modifyAtParent_ok _ _ _ _ _ hm
      cases p with
      | file a b c d e => simp [makeDirF] at hf
      | dir ch pp ps pcr pm =>
          rw [makeDirF] at hf
          by_cases hex : (getKey ch (mkBasename (parsePath fs.currentPath path))).isSome
          · rw [if_pos hex] at hf; simp at hf
          · rw [if_neg hex] at hf
            simp only [Except.ok.injEq, Prod.mk.injEq] at hf
            obtain ⟨hp2, hout⟩ := hf
            constructor
            · have hroot : fs2.root = root2 := by rw [← hfs2]
              rw [hroot, hcont [mkBasename (parsePath fs.currentPath path)] [], ← hp2]
              rw [List.nil_append, walkFrom]
              simp only [getKey_setKey_self]
              rw [walkFrom]
            · rw [← hfs2]

/-- Witness for C4 (amended) at `makeDirectory seedFS 3 "/tmp/d"`. -/
theorem C4_mkdir_defaults_witness :
    walkFrom [] (makeDirectory seedFS 3 "/tmp/d").2.root
        ((parsePath seedFS.currentPath "/tmp/d").dropLast ++
          [mkBasename (parsePath seedFS.currentPath "/tmp/d")]) =
      Except.ok (Node.dir Children.nil (some "drwxr-xr-x") (some 0)
        (some (JTime.date 3)) (some (JTime.date 3))) ∧
    (makeDirectory seedFS 3 "/tmp/d").2.currentPath = seedFS.currentPath :=
  C4_mkdir_defaults seedFS 3 "/tmp/d" "Directory created: d"
    (makeDirectory seedFS 3 "/tmp/d").2 rfl

/-- Counterexample to claim C5: the mode `"888"` fails the spec's octal
validation (digits must be 0–7) and the symbolic validation, yet
`changePermissions` accepts it — `/^\d+$/` matches any digit string, and
`parseInt("888", 8)` is `NaN`, whose bit tests all fail, storing
`---------`. -/
theorem C5_cx :
    specOctalValid "888" = false ∧ isSymbolicPerm "888" = false ∧
    (changePermissions seedFS "/home/user/welcome.txt" "888").1 =
      Except.ok "Changed permissions of /home/user/welcome.txt to ---------" ∧
    (getNodeAtPath (changePermissions seedFS "/home/user/welcome.txt" "888").2
        "/home/user/welcome.txt").toOption.map nodePerms = some (some "---------") :=
  ⟨by decide, by decide, rfl, rfl⟩

/-- Claim C5 as amended: a mode that is not all digits and fails the
symbolic regex returns `Invalid permission format` with the state unchanged;
but *every* all-digit mode string (of any length, digits 8 and 9 included)
is accepted, converted through `parseInt(·, 8)` and the nine bit tests, and
stored; in particular `"755"` stores `rwxr-xr-x` and `"644"` stores
`rw-r--r--`, and any mode passing the spec's 3-digit-octal validation stores
a 9-character symbolic string. -/
theorem C5_perm_validation :
    (∀ (fs : VFS) (path mode : String) (node : Node),
      getNodeAtPath fs path = Except.ok node →
      isAllDigits mode = false → isSymbolicPerm mode = false →
      changePermissions fs path mode = (Except.error "Invalid permission format", fs)) ∧
    (∀ (fs : VFS) (path mode : String) (node : Node),
      getNodeAtPath fs path = Except.ok node → isAllDigits mode = true →
      changePermissions fs path mode =
        (Except.ok ("Changed permissions of " ++ path ++ " to " ++ octalStrToSymbolic mode),
         { fs with root := (updatePermsAt fs.root (parsePath fs.currentPath path)
            (octalStrToSymbolic mode)) }) ∧
      getNodeAtPath
        { fs with root := (updatePermsAt fs.root (parsePath fs.currentPath path)
            (octalStrToSymbolic mode)) } path =
        Except.ok (setPermsN node (octalStrToSymbolic mode))) ∧
    octalStrToSymbolic "755" = "rwxr-xr-x" ∧ octalStrToSymbolic "644" = "rw-r--r--" ∧
    (∀ mode, (octalStrToSymbolic mode).data.length = 9) := by
  have hlen1 : ∀ v m c, (permBit v m c).data.length = 1 := by
    intro v m c
    unfold permBit
    split <;> rfl
  refine ⟨?_, ?_, rfl, rfl, ?_⟩
  · intro fs path mode node h hd hs
    unfold changePermissions
    simp only [h]
    rw [if_neg (by simp [hd]), if_neg (by simp [hs])]
  · intro fs path mode node h hd
    unfold changePermissions
    simp only [h]
    rw [if_pos hd]
    refine ⟨rfl, ?_⟩
    by_cases hp : path = "/"
    · subst hp
      unfold getNodeAtPath at h ⊢
      rw [if_pos rfl] at h ⊢
      obtain rfl : fs.root = node := by simpa using h
      show Except.ok (updatePermsAt fs.root (parsePath fs.currentPath "/")
        (octalStrToSymbolic mode)) = _
      rw [show parsePath fs.currentPath "/" = [] from rfl, updatePermsAt_nil]
    · unfold getNodeAtPath at h ⊢
      rw [if_neg hp] at h ⊢
      exact walk_updatePermsAt _ [] _ _ _ h
  · intro mode
    unfold octalStrToSymbolic
    rw [strData_append, strData_append, strData_append, strData_append,
      strData_append, strData_append, strData_append, strData_append]
    simp [List.length_append, hlen1]

/-- Witness for C5 at concrete modes on `seedFS`. -/
theorem C5_perm_validation_witness :
    changePermissions seedFS "/home/user/welcome.txt" "bogus" =
      (Except.error "Invalid permission format", seedFS) ∧
    changePermissions seedFS "/home/user/welcome.txt" "755" =
      (Except.ok ("Changed permissions of /home/user/welcome.txt to " ++
          octalStrToSymbolic "755"),
       { seedFS with root := (updatePermsAt seedFS.root
          (parsePath seedFS.currentPath "/home/user/welcome.txt")
          (octalStrToSymbolic "755")) }) :=
  ⟨C5_perm_validation.1 seedFS "/home/user/welcome.txt" "bogus"
      (Node.file welcomeText (some "rw-r--r--") (some 72)
        (some (JTime.date 0)) (some (JTime.date 0))) rfl rfl rfl,
    (C5_perm_validation.2.1 seedFS "/home/user/welcome.txt" "755"
      (Node.file welcomeText (some "rw-r--r--") (some 72)
        (some (JTime.date 0)) (some (JTime.date 0))) rfl rfl).1⟩

/-- A mutation through the parent that inserts `setKey ch b (nodeOf ch)`
leaves exactly `nodeOf ch` at the target slot. -/
theorem modify_insert_walk (f : Node → Except String (Node × String)) (b : String)
    (nodeOf : Children → Node)
    (hf : ∀ p p2 out2, f p = Except.ok (p2, out2) →
      ∃ ch pp ps pcr pm, p = Node.dir ch pp ps pcr pm ∧
        p2 = Node.dir (setKey ch b (nodeOf ch)) pp ps pcr pm) :
    ∀ (pc : List String) (root root2 : Node) (out : String),
    modifyAtParent f root pc = Except.ok (root2, out) →
    ∃ ch, walkFrom [] root2 (pc ++ [b]) = Except.ok (nodeOf ch) := by
  intro pc root root2 out hm
  obtain ⟨p, p2, hw, hfok, hcont⟩ := modifyAtParent_ok f pc root root2 out hm
  obtain ⟨ch, pp, ps, pcr, pm, hp, hp2⟩ := hf p p2 out hfok
  refine ⟨ch, ?_⟩
  rw [hcont [b] [], List.nil_append, hp2, walkFrom]
  simp only [getKey_setKey_self]
  rw [walkFrom]

/-- Counterexample to claim C3: the seeded `welcome.txt` carries
`size = 72` but its content is 75 characters (= bytes, all ASCII) long, and
the seeded `/bin/ls` has no `size` field at all. -/
theorem C3_cx :
    (getNodeAtPath seedFS "/home/user/welcome.txt").toOption.map nodeSize = some (some 72) ∧
    (getNodeAtPath seedFS "/home/user/welcome.txt").toOption.map nodeContent =
      some (some welcomeText) ∧
    welcomeText.data.length = 75 ∧ ¬ ((72 : Nat) = 75) ∧
    (getNodeAtPath seedFS "/bin/ls").toOption.map nodeSize = some none :=
  ⟨rfl, rfl, by decide, by decide, rfl⟩

/-- Claim C3 as amended: every File node created or updated by `createFile`
or `writeFile` has `size` equal to the length of its content string
(`content.length`, UTF-16 code units in JS — characters here); the *seeded*
files do not satisfy the claim (`welcome.txt` has size 72 but content length
75; the `/bin` and `/etc` seeds have no size field). -/
theorem C3_size_tracks_content :
    (∀ (fs : VFS) (now : Nat) (path content msg : String) (fs2 : VFS),
      createFile fs now path content = (Except.ok msg, fs2) →
      ∃ perm cr, walkFrom [] fs2.root ((parsePath fs.currentPath path).dropLast ++
          [mkBasename (parsePath fs.currentPath path)]) =
        Except.ok (Node.file content perm (some content.data.length) cr
          (some (JTime.date now)))) ∧
    (∀ (fs : VFS) (now : Nat) (path content msg : String) (fs2 : VFS),
      writeFile fs now path content = (Except.ok msg, fs2) →
      ∃ perm cr, walkFrom [] fs2.root ((parsePath fs.currentPath path).dropLast ++
          [mkBasename (parsePath fs.currentPath path)]) =
        Except.ok (Node.file content perm (some content.data.length) cr
          (some (JTime.date now)))) := by
  constructor
  · intro fs now path content msg fs2 h
    unfold createFile at h
    cases hm : modifyAtParent
        (createFileF now (mkBasename (parsePath fs.currentPath path)) content)
        fs.root (parsePath fs.currentPath path).dropLast with
    | error e => simp [hm] at h
    | ok pr =>
        obtain ⟨root2, out⟩ := pr
        simp only [hm, Prod.mk.injEq, Except.ok.injEq] at h
        obtain ⟨hmsg, hfs2⟩ := h
        obtain ⟨ch, hwalk⟩ := modify_insert_walk _
          (mkBasename (parsePath fs.currentPath path))
          (fun ch => Node.file content (some "rw-r--r--") (some content.data.length)
            (some (match getKey ch (mkBasename (parsePath fs.currentPath path)) with
              | some ex => (nodeCreated ex).getD (JTime.date now)
              | none => JTime.date now))
            (some (JTime.date now)))
          (by
            intro p p2 out2 hfo
            cases p with
            | file a b c d e => simp [createFileF] at hfo
            | dir ch pp ps pcr pm =>
                rw [createFileF] at hfo
                simp only [Except.ok.injEq, Prod.mk.injEq] at hfo
                exact ⟨ch, pp, ps, pcr, pm, rfl, hfo.1.symm⟩)
          _ _ _ _ hm
        rw [← hfs2]
        exact ⟨_, _, hwalk⟩
  · intro fs now path content msg fs2 h
    unfold writeFile at h
    cases hm : modifyAtParent
        (writeFileF now (mkBasename (parsePath fs.currentPath path)) content)
        fs.root (parsePath fs.currentPath path).dropLast with
    | error e => simp [hm] at h
    | ok pr =>
        obtain ⟨root2, out⟩ := pr
        simp only [hm, Prod.mk.injEq, Except.ok.injEq] at h
        obtain ⟨hmsg, hfs2⟩ := h
        obtain ⟨ch, hwalk⟩ := modify_insert_walk _
          (mkBasename (parsePath fs.currentPath path))
          (fun ch => match getKey ch (mkBasename (parsePath fs.currentPath path)) with
            | some (Node.file _ pf _ cf _) =>
                Node.file content pf (some content.data.length) cf (some (JTime.date now))
            | _ =>
                Node.file content (some "rw-r--r--") (some content.data.length)
                  (some (JTime.date now)) (some (JTime.date now)))
          (by
            intro p p2 out2 hfo
            cases p with
            | file a b c d e => simp [writeFileF] at hfo
            | dir ch pp ps pcr pm =>
                rw [writeFileF] at hfo
                simp only [Except.ok.injEq, Prod.mk.injEq] at hfo
                exact ⟨ch, pp, ps, pcr, pm, rfl, hfo.1.symm⟩)
          _ _ _ _ hm
        rw [← hfs2]
        cases hk : getKey ch (mkBasename (parsePath fs.currentPath path)) with
        | none =>
            rw [hk] at hwalk
            exact ⟨_, _, hwalk⟩
        | some ex =>
            cases ex with
            | file a b c d e => rw [hk] at hwalk; exact ⟨_, _, hwalk⟩
            | dir a b c d e => rw [hk] at hwalk; exact ⟨_, _, hwalk⟩

/-- Witness for C3 at concrete calls on `seedFS`. -/
theorem C3_size_tracks_content_witness :
    (∃ perm cr, walkFrom [] (createFile seedFS 4 "/tmp/new.txt" "hello").2.root
        ((parsePath seedFS.currentPath "/tmp/new.txt").dropLast ++
          [mkBasename (parsePath seedFS.currentPath "/tmp/new.txt")]) =
      Except.ok (Node.file "hello" perm (some "hello".data.length) cr
        (some (JTime.date 4)))) ∧
    (∃ perm cr, walkFrom [] (writeFile seedFS 5 "/home/user/welcome.txt" "abc").2.root
        ((parsePath seedFS.currentPath "/home/user/welcome.txt").dropLast ++
          [mkBasename (parsePath seedFS.currentPath "/home/user/welcome.txt")]) =
      Except.ok (Node.file "abc" perm (some "abc".data.length) cr
        (some (JTime.date 5)))) :=
  ⟨C3_size_tracks_content.1 seedFS 4 "/tmp/new.txt" "hello" "File created: new.txt"
      (createFile seedFS 4 "/tmp/new.txt" "hello").2 rfl,
    C3_size_tracks_content.2 seedFS 5 "/home/user/welcome.txt" "abc"
      "File written: welcome.txt" (writeFile seedFS 5 "/home/user/welcome.txt" "abc").2 rfl⟩

/-- What a successful `writeFile` leaves at the target slot, for any state
whose parent directory resolves. -/
theorem writeFile_sets (fs : VFS) (now : Nat) (path content : String)
    (pch : Children) (pp : Option String) (ps : Option Nat) (pcr pm : Option JTime)
    (hw : walkFrom [] fs.root (parsePath fs.currentPath path).dropLast =
      Except.ok (Node.dir pch pp ps pcr pm)) :
    ∃ fs2, writeFile fs now path content =
        (Except.ok ("File written: " ++ mkBasename (parsePath fs.currentPath path)), fs2) ∧
      fs2.currentPath = fs.currentPath ∧
      walkFrom [] fs2.root ((parsePath fs.currentPath path).dropLast ++
          [mkBasename (parsePath fs.currentPath path)]) =
        Except.ok (match getKey pch (mkBasename (parsePath fs.currentPath path)) with
          | some (Node.file _ pf _ cf _) =>
              Node.file content pf (some content.data.length) cf (some (JTime.date now))
          | _ =>
              Node.file content (some "rw-r--r--") (some content.data.length)
                (some (JTime.date now)) (some (JTime.date now))) := by
  set b := mkBasename (parsePath fs.currentPath path) with hbdef
  set pc := (parsePath fs.currentPath path).dropLast with hpcdef
  have hdir : isDirN (Node.dir pch pp ps pcr pm) = true := rfl
  have hf : writeFileF now b content (Node.dir pch pp ps pcr pm) =
      Except.ok (Node.dir (setKey pch b (match getKey pch b with
        | some (Node.file _ pf _ cf _) =>
            Node.file content pf (some content.data.length) cf (some (JTime.date now))
        | _ =>
            Node.file content (some "rw-r--r--") (some content.data.length)
              (some (JTime.date now)) (some (JTime.date now)))) pp ps pcr pm,
        "File written: " ++ b) := by
    rw [writeFileF]
  obtain ⟨n2, hm⟩ := modifyAtParent_intro (writeFileF now b content) pc [] fs.root
    (Node.dir pch pp ps pcr pm) _ _ hw hdir hf
  obtain ⟨p, p2, hw2, hf2, hcont⟩ := modifyAtParent_ok _ _ _ _ _ hm
  have hpeq : p = Node.dir pch pp ps pcr pm := by
    have h0 := hw2 []
    rw [hw] at h0
    exact (Except.ok.injEq _ _ ▸ h0).symm ▸ rfl
  refine ⟨{ fs with root := n2 }, ?_, rfl, ?_⟩
  · unfold writeFile
    simp only [← hbdef, ← hpcdef, hm]
  · subst hpeq
    rw [hf] at hf2
    simp only [Except.ok.injEq, Prod.mk.injEq] at hf2
    rw [show ({ fs with root := n2 } : VFS).root = n2 from rfl]
    rw [hcont [b] [], List.nil_append, ← hf2.1, walkFrom]
    simp only [getKey_setKey_self]
    rw [walkFrom]

/-- Claim C9: when the target name denotes an existing Directory node,
`writeFile` succeeds and replaces the directory — its subtree becomes
unreachable — with a File carrying the new content, default permissions
`rw-r--r--` and a fresh `created`; the existing node's `created` and
`permissions` are carried over exactly when the existing node is a File. -/
theorem C9_writeFile_upserts (fs : VFS) (now : Nat) (path content : String)
    (pch : Children) (pp : Option String) (ps : Option Nat) (pcr pm : Option JTime)
    (hw : walkFrom [] fs.root (parsePath fs.currentPath path).dropLast =
      Except.ok (Node.dir pch pp ps pcr pm)) :
    (∀ dch dp dsz dcr dm,
      getKey pch (mkBasename (parsePath fs.currentPath path)) =
        some (Node.dir dch dp dsz dcr dm) →
      ∃ fs2, writeFile fs now path content =
          (Except.ok ("File written: " ++ mkBasename (parsePath fs.currentPath path)), fs2) ∧
        fs2.currentPath = fs.currentPath ∧
        walkFrom [] fs2.root ((parsePath fs.currentPath path).dropLast ++
            [mkBasename (parsePath fs.currentPath path)]) =
          Except.ok (Node.file content (some "rw-r--r--") (some content.data.length)
            (some (JTime.date now)) (some (JTime.date now))) ∧
        ∀ t ts, ∃ e, walkFrom [] fs2.root ((parsePath fs.currentPath path).dropLast ++
            [mkBasename (parsePath fs.currentPath path)] ++ t :: ts) = Except.error e) ∧
    (∀ c0 pf sz0 cf m0,
      getKey pch (mkBasename (parsePath fs.currentPath path)) =
        some (Node.file c0 pf sz0 cf m0) →
      ∃ fs2, writeFile fs now path content =
          (Except.ok ("File written: " ++ mkBasename (parsePath fs.currentPath path)), fs2) ∧
        fs2.currentPath = fs.currentPath ∧
        walkFrom [] fs2.root ((parsePath fs.currentPath path).dropLast ++
            [mkBasename (parsePath fs.currentPath path)]) =
          Except.ok (Node.file content pf (some content.data.length) cf
            (some (JTime.date now)))) := by
  obtain ⟨fs2, h1, h2, h3⟩ := writeFile_sets fs now path content pch pp ps pcr pm hw
  constructor
  · intro dch dp dsz dcr dm hk
    rw [hk] at h3
    refine ⟨fs2, h1, h2, h3, ?_⟩
    intro t ts
    rw [walkFrom_append _ _ [] _ _ h3, List.nil_append, walkFrom]
    exact ⟨_, rfl⟩
  · intro c0 pf sz0 cf m0 hk
    rw [hk] at h3
    exact ⟨fs2, h1, h2, h3⟩

/-- Witness for C9: overwrite the seeded directory `/home/user/Documents`
and the seeded file `/home/user/welcome.txt`. -/
theorem C9_writeFile_upserts_witness :
    (∃ fs2, writeFile seedFS 6 "/home/user/Documents" "hi" =
        (Except.ok ("File written: " ++
          mkBasename (parsePath seedFS.currentPath "/home/user/Documents")), fs2) ∧
      fs2.currentPath = seedFS.currentPath ∧
      walkFrom [] fs2.root ((parsePath seedFS.currentPath "/home/user/Documents").dropLast ++
          [mkBasename (parsePath seedFS.currentPath "/home/user/Documents")]) =
        Except.ok (Node.file "hi" (some "rw-r--r--") (some "hi".data.length)
          (some (JTime.date 6)) (some (JTime.date 6))) ∧
      ∀ t ts, ∃ e, walkFrom [] fs2.root
          ((parsePath seedFS.currentPath "/home/user/Documents").dropLast ++
            [mkBasename (parsePath seedFS.currentPath "/home/user/Documents")] ++ t :: ts) =
          Except.error e) ∧
    (∃ fs2, writeFile seedFS 7 "/home/user/welcome.txt" "hi" =
        (Except.ok ("File written: " ++
          mkBasename (parsePath seedFS.currentPath "/home/user/welcome.txt")), fs2) ∧
      fs2.currentPath = seedFS.currentPath ∧
      walkFrom [] fs2.root ((parsePath seedFS.currentPath "/home/user/welcome.txt").dropLast ++
          [mkBasename (parsePath seedFS.currentPath "/home/user/welcome.txt")]) =
        Except.ok (Node.file "hi" (some "rw-r--r--") (some "hi".data.length)
          (some (JTime.date 0)) (some (JTime.date 7)))) :=
  ⟨(C9_writeFile_upserts seedFS 6 "/home/user/Documents" "hi" seedUserCh
      none none none none rfl).1 Children.nil none none none none rfl,
    (C9_writeFile_upserts seedFS 7 "/home/user/welcome.txt" "hi" seedUserCh
      none none none none rfl).2 welcomeText (some "rw-r--r--") (some 72)
      (some (JTime.date 0)) (some (JTime.date 0)) rfl⟩

theorem chLength_zero : (ch : Children) → chLength ch = 0 → ch = Children.nil
  | Children.nil, _ => rfl
  | Children.cons _ _ _, h => by simp [chLength] at h

/-- Counterexample to claim C6: the root `/` is an existing directory with
four children, yet `remove("/", recursive=true)` fails instead of deleting
it, and `remove("/", recursive=false)` reports `No such file or directory`
(the popped basename is the JS `undefined` key), not `NotEmpty`. -/
theorem C6_cx :
    isDirN seedRoot = true ∧ chLength seedRootCh ≠ 0 ∧
    (remove seedFS "/" true).1 =
      Except.error "Cannot remove 'undefined': No such file or directory" ∧
    (remove seedFS "/" false).1 =
      Except.error "Cannot remove 'undefined': No such file or directory" :=
  ⟨rfl, by decide, rfl, rfl⟩

/-- Claim C6 as amended: for every existing **non-root** directory node with
at least one child (reached through a parent whose keys are unique, as JS
objects guarantee), `remove` without `recursive` returns the NotEmpty error
and changes nothing, while `remove` with `recursive=true` succeeds and
unhooks the whole subtree: `fileExists` is false afterwards for the
directory and for every path extending it.  At the root itself both calls
fail (see the counterexample). -/
theorem C6_remove_recursive (fs : VFS) (path : String) (pc : List String) (b : String)
    (pch : Children) (pp : Option String) (ps : Option Nat) (pcr pm : Option JTime)
    (dch : Children) (dp : Option String) (dsz : Option Nat) (dcr dm : Option JTime)
    (h1 : parsePath fs.currentPath path = pc ++ [b])
    (h2 : walkFrom [] fs.root pc = Except.ok (Node.dir pch pp ps pcr pm))
    (h3 : getKey pch b = some (Node.dir dch dp dsz dcr dm))
    (h4 : dch ≠ Children.nil)
    (h5 : (keysList pch).Nodup) :
    remove fs path false =
      (Except.error ("Cannot remove '" ++ b ++
        "': Directory not empty (use -r for recursive deletion)"), fs) ∧
    ∃ fs2, remove fs path true = (Except.ok ("Removed: " ++ b), fs2) ∧
      fs2.currentPath = fs.currentPath ∧
      ∀ q tail, parsePath fs.currentPath q = pc ++ [b] ++ tail →
        fileExists fs2 q = false := by
  have hdrop : (pc ++ [b]).dropLast = pc := by simp
  have hbase : mkBasename (pc ++ [b]) = b := by simp [mkBasename]
  have hdir : isDirN (Node.dir pch pp ps pcr pm) = true := rfl
  have hne : ¬ chLength dch = 0 := fun h0 => h4 (chLength_zero dch h0)
  constructor
  · have hfErr : removeF b false (Node.dir pch pp ps pcr pm) =
        Except.error ("Cannot remove '" ++ b ++
          "': Directory not empty (use -r for recursive deletion)") := by
      rw [removeF]
      simp only [h3]
      rw [if_pos (by simp [isDirN, childCount, hne])]
    have hm := modifyAtParent_intro_error (removeF b false) pc [] fs.root
      (Node.dir pch pp ps pcr pm) _ h2 hdir hfErr
    unfold remove
    simp only [h1, hdrop, hbase, hm]
  · have hfOk : removeF b true (Node.dir pch pp ps pcr pm) =
        Except.ok (Node.dir (delKey pch b) pp ps pcr pm, "Removed: " ++ b) := by
      rw [removeF]
      simp only [h3]
      rw [if_neg (by simp)]
    obtain ⟨n2, hm⟩ := modifyAtParent_intro (removeF b true) pc [] fs.root
      (Node.dir pch pp ps pcr pm) _ _ h2 hdir hfOk
    obtain ⟨p, p2, hw2, hf2, hcont⟩ := modifyAtParent_ok _ _ _ _ _ hm
    have hpeq : p = Node.dir pch pp ps pcr pm := by
      have h0 := hw2 []
      rw [h2] at h0
      simpa using h0.symm
    subst hpeq
    rw [hfOk] at hf2
    simp only [Except.ok.injEq, Prod.mk.injEq] at hf2
    refine ⟨{ fs with root := n2 }, ?_, rfl, ?_⟩
    · unfold remove
      simp only [h1, hdrop, hbase, hm]
    · intro q tail hq
      have hqroot : ¬ q = "/" := by
        intro hq2
        subst hq2
        rw [show parsePath fs.currentPath "/" = [] from rfl] at hq
        simp at hq
      unfold fileExists getNodeAtPath
      rw [if_neg hqroot]
      rw [show ({ fs with root := n2 } : VFS).currentPath = fs.currentPath from rfl]
      rw [hq, List.append_assoc, List.singleton_append]
      rw [show ({ fs with root := n2 } : VFS).root = n2 from rfl]
      rw [hcont (b :: tail) [], List.nil_append, ← hf2.1, walkFrom]
      simp only [getKey_delKey_self pch b h5]

/-- Witness for C6 at `remove seedFS "/home/user"`: `/home/user` is a
non-empty directory; afterwards neither it nor the seeded
`/home/user/welcome.txt` exists. -/
theorem C6_remove_recursive_witness :
    (remove seedFS "/home/user" false =
      (Except.error "Cannot remove 'user': Directory not empty (use -r for recursive deletion)",
        seedFS)) ∧
    ∃ fs2, remove seedFS "/home/user" true = (Except.ok "Removed: user", fs2) ∧
      fs2.currentPath = seedFS.currentPath ∧
      ∀ q tail, parsePath seedFS.currentPath q = ["home"] ++ ["user"] ++ tail →
        fileExists fs2 q = false := by
  have h := C6_remove_recursive seedFS "/home/user" ["home"] "user"
    seedHomeCh none none none none seedUserCh none none none none
    rfl rfl rfl (fun hh => Children.noConfusion hh) (by decide)
  exact ⟨h.1, h.2⟩

/-- Claim C10: every mutating engine operation is atomic on error — a
failure result leaves the tree and the cursor exactly as they were.  Each
operation performs its single mutating step only after all checks pass. -/
theorem C10_atomic_on_error :
    (∀ (fs : VFS) (now : Nat) (path e : String) (fs2 : VFS),
      makeDirectory fs now path = (Except.error e, fs2) → fs2 = fs) ∧
    (∀ (fs : VFS) (now : Nat) (path content e : String) (fs2 : VFS),
      createFile fs now path content = (Except.error e, fs2) → fs2 = fs) ∧
    (∀ (fs : VFS) (now : Nat) (path content e : String) (fs2 : VFS),
      writeFile fs now path content = (Except.error e, fs2) → fs2 = fs) ∧
    (∀ (fs : VFS) (path : String) (recursive : Bool) (e : String) (fs2 : VFS),
      remove fs path recursive = (Except.error e, fs2) → fs2 = fs) ∧
    (∀ (fs : VFS) (path e : String) (fs2 : VFS),
      changeDirectory fs path = (Except.error e, fs2) → fs2 = fs) ∧
    (∀ (fs : VFS) (path mode e : String) (fs2 : VFS),
      changePermissions fs path mode = (Except.error e, fs2) → fs2 = fs) := by
  refine ⟨?_, ?_, ?_, ?_, ?_, ?_⟩
  · intro fs now path e fs2 h
    unfold makeDirectory at h
    cases hm : modifyAtParent (makeDirF now (mkBasename (parsePath fs.currentPath path)))
        fs.root (parsePath fs.currentPath path).dropLast with
    | error e2 =>
        simp only [hm, Prod.mk.injEq, Except.error.injEq] at h
        exact h.2.symm
    | ok pr =>
        obtain ⟨a, b2⟩ := pr
        simp [hm] at h
  · intro fs now path content e fs2 h
    unfold createFile at h
    cases hm : modifyAtParent
        (createFileF now (mkBasename (parsePath fs.currentPath path)) content)
        fs.root (parsePath fs.currentPath path).dropLast with
    | error e2 =>
        simp only [hm, Prod.mk.injEq, Except.error.injEq] at h
        exact h.2.symm
    | ok pr =>
        obtain ⟨a, b2⟩ := pr
        simp [hm] at h
  · intro fs now path content e fs2 h
    unfold writeFile at h
    cases hm : modifyAtParent
        (writeFileF now (mkBasename (parsePath fs.currentPath path)) content)
        fs.root (parsePath fs.currentPath path).dropLast with
    | error e2 =>
        simp only [hm, Prod.mk.injEq, Except.error.injEq] at h
        exact h.2.symm
    | ok pr =>
        obtain ⟨a, b2⟩ := pr
        simp [hm] at h
  · intro fs path recursive e fs2 h
    unfold remove at h
    cases hm : modifyAtParent
        (removeF (mkBasename (parsePath fs.currentPath path)) recursive)
        fs.root (parsePath fs.currentPath path).dropLast with
    | error e2 =>
        simp only [hm, Prod.mk.injEq, Except.error.injEq] at h
        exact h.2.symm
    | ok pr =>
        obtain ⟨a, b2⟩ := pr
        simp [hm] at h
  · intro fs path e fs2 h
    unfold changeDirectory at h
    by_cases h1 : path = "/"
    · rw [if_pos h1] at h; simp at h
    · rw [if_neg h1] at h
      by_cases h2 : path = "~"
      · rw [if_pos h2] at h; simp at h
      · rw [if_neg h2] at h
        by_cases h3 : path = ".."
        · rw [if_pos h3] at h
          by_cases h4 : (filteredComps fs.currentPath).length > 0
          · rw [if_pos h4] at h; simp at h
          · rw [if_neg h4] at h; simp at h
        · rw [if_neg h3] at h
          cases hg : getNodeAtPath fs (cdTarget fs path) with
          | error e2 =>
              rw [hg] at h
              simp only [Prod.mk.injEq, Except.error.injEq] at h
              exact h.2.symm
          | ok node =>
              simp only [hg] at h
              by_cases hni : isDirN node
              · rw [if_pos hni] at h; simp at h
              · rw [if_neg hni] at h
                simp only [Prod.mk.injEq, Except.error.injEq] at h
                exact h.2.symm
  · intro fs path mode e fs2 h
    unfold changePermissions at h
    cases hg : getNodeAtPath fs path with
    | error e2 =>
        rw [hg] at h
        simp only [Prod.mk.injEq, Except.error.injEq] at h
        exact h.2.symm
    | ok node =>
        simp only [hg] at h
        by_cases h1 : isAllDigits mode
        · rw [if_pos h1] at h; simp at h
        · rw [if_neg h1] at h
          by_cases h2 : isSymbolicPerm mode
          · rw [if_pos h2] at h; simp at h
          · rw [if_neg h2] at h
            simp only [Prod.mk.injEq, Except.error.injEq] at h
            exact h.2.symm

/-- Witness for C10 at concrete failing calls on `seedFS`: a missing parent,
an existing directory name, a non-empty directory, a missing `cd` target and
a bad permission mode all leave the state untouched. -/
theorem C10_atomic_on_error_witness :
    (makeDirectory seedFS 0 "/nope/d").2 = seedFS ∧
    (remove seedFS "/home" false).2 = seedFS ∧
    (changeDirectory seedFS "/nope").2 = seedFS ∧
    (changePermissions seedFS "/home/user/welcome.txt" "abc").2 = seedFS :=
  ⟨C10_atomic_on_error.1 seedFS 0 "/nope/d" "Directory does not exist: nope"
      (makeDirectory seedFS 0 "/nope/d").2 rfl,
    C10_atomic_on_error.2.2.2.1 seedFS "/home" false
      "Cannot remove 'home': Directory not empty (use -r for recursive deletion)"
      (remove seedFS "/home" false).2 rfl,
    C10_atomic_on_error.2.2.2.2.1 seedFS "/nope" "'nope' does not exist"
      (changeDirectory seedFS "/nope").2 rfl,
    C10_atomic_on_error.2.2.2.2.2 seedFS "/home/user/welcome.txt" "abc"
      "Invalid permission format"
      (changePermissions seedFS "/home/user/welcome.txt" "abc").2 rfl⟩

theorem isDirN_root_of_isDirAt (fs : VFS) (p : String) (h : isDirAt fs p = true) :
    isDirN fs.root = true := by
  unfold isDirAt getNodeAtPath at h
  by_cases hp : p = "/"
  · rw [if_pos hp] at h
    exact h
  · rw [if_neg hp] at h
    cases hc : parsePath fs.currentPath p with
    | nil =>
        rw [hc] at h
        exact h
    | cons c cs =>
        rw [hc] at h
        cases hr : fs.root with
        | file a b d e f => rw [hr] at h; simp [walkFrom] at h
        | dir ch pp ps pcr pm => rfl

theorem strStarts_append_left (a b : String) (h : strStarts a "/" = true) :
    strStarts (a ++ b) "/" = true := by
  obtain ⟨t, ht⟩ := (strStarts_slash_iff a).mp h
  exact (strStarts_slash_iff (a ++ b)).mpr ⟨t ++ b.data, by rw [strData_append, ht]; rfl⟩

theorem cdTarget_starts (fs : VFS) (path : String)
    (hs : strStarts fs.currentPath "/" = true) :
    strStarts (cdTarget fs path) "/" = true := by
  unfold cdTarget
  by_cases c1 : ¬ strStarts path "/" = true ∧ ¬ strStarts path "~" = true
  · rw [if_pos c1]
    obtain ⟨t, ht⟩ := (strStarts_slash_iff fs.currentPath).mp hs
    obtain ⟨t2, ht2⟩ := joinPaths_starts fs.currentPath path ⟨t, ht⟩
    exact (strStarts_slash_iff _).mpr ⟨t2, ht2⟩
  · rw [if_neg c1]
    by_cases c2 : strStarts path "~" = true
    · rw [if_pos c2]
      exact strStarts_append_left "/home/user" (strDropOne path) (by decide)
    · rw [if_neg c2]
      rcases not_and_or.mp c1 with hc | hc
      · simpa using hc
      · exact absurd c2 (by simpa using hc)

/-- Counterexample to claim C1: from the bootstrap state (cursor
`/home/user`), `remove("/home", recursive=true)` succeeds but leaves the
cursor pointing at a deleted directory: `currentPath` no longer resolves. -/
theorem C1_cx :
    (remove seedFS "/home" true).1 = Except.ok "Removed: home" ∧
    (remove seedFS "/home" true).2.currentPath = "/home/user" ∧
    isDirAt (remove seedFS "/home" true).2 (remove seedFS "/home" true).2.currentPath
      = false ∧
    fileExists (remove seedFS "/home" true).2 "/home/user" = false :=
  ⟨rfl, rfl, rfl, rfl⟩

/-- Claim C1 as amended: a successful `changeDirectory` re-establishes the
cursor invariant — given an absolute cursor that resolved to a directory
before the call (and, for the `~` shortcut, an existing `/home/user`) the
new cursor again resolves to an existing Directory node and stays absolute.
`createFile`, `writeFile`, `remove`, `makeDirectory` and `changePermissions`
never touch the cursor string at all — which is exactly why a recursive
`remove` of a cursor ancestor leaves `currentPath` dangling (see the
counterexample). -/
theorem C1_cursor_validity :
    (∀ (fs : VFS) (path msg : String) (fs2 : VFS),
      changeDirectory fs path = (Except.ok msg, fs2) →
      strStarts fs.currentPath "/" = true →
      isDirAt fs fs.currentPath = true →
      (path = "~" → isDirAt fs "/home/user" = true) →
      isDirAt fs2 fs2.currentPath = true ∧ strStarts fs2.currentPath "/" = true) ∧
    (∀ (fs : VFS) (now : Nat) (path content : String),
      (createFile fs now path content).2.currentPath = fs.currentPath) ∧
    (∀ (fs : VFS) (now : Nat) (path content : String),
      (writeFile fs now path content).2.currentPath = fs.currentPath) ∧
    (∀ (fs : VFS) (path : String) (recursive : Bool),
      (remove fs path recursive).2.currentPath = fs.currentPath) ∧
    (∀ (fs : VFS) (now : Nat) (path : String),
      (makeDirectory fs now path).2.currentPath = fs.currentPath) ∧
    (∀ (fs : VFS) (path mode : String),
      (changePermissions fs path mode).2.currentPath = fs.currentPath) := by
  refine ⟨?_, ?_, ?_, ?_, ?_, ?_⟩
  · intro fs path msg fs2 h hs hd htil
    unfold changeDirectory at h
    by_cases h1 : path = "/"
    · rw [if_pos h1] at h
      simp only [Prod.mk.injEq, Except.ok.injEq] at h
      obtain ⟨hm1, hm2⟩ := h
      subst hm2
      refine ⟨?_, ?_⟩
      · exact isDirN_root_of_isDirAt fs fs.currentPath hd
      · show strStarts "/" "/" = true
        decide
    · rw [if_neg h1] at h
      by_cases h2 : path = "~"
      · rw [if_pos h2] at h
        simp only [Prod.mk.injEq, Except.ok.injEq] at h
        obtain ⟨hm1, hm2⟩ := h
        subst hm2
        refine ⟨?_, ?_⟩
        · show isDirAt ⟨fs.root, "/home/user"⟩ "/home/user" = true
          unfold isDirAt
          rw [getNodeAtPath_cursor fs.root "/home/user" fs.currentPath "/home/user"
            (by decide)]
          rw [show (⟨fs.root, fs.currentPath⟩ : VFS) = fs from rfl]
          have := htil h2
          unfold isDirAt at this
          exact this
        · show strStarts "/home/user" "/" = true
          decide
      · rw [if_neg h2] at h
        by_cases h3 : path = ".."
        · rw [if_pos h3] at h
          by_cases h4 : (filteredComps fs.currentPath).length > 0
          · rw [if_pos h4] at h
            simp only [Prod.mk.injEq, Except.ok.injEq] at h
            obtain ⟨hm1, hm2⟩ := h
            subst hm2
            have hcur : ¬ fs.currentPath = "/" := by
              intro hc
              rw [hc] at h4
              simp [show filteredComps "/" = [] from rfl] at h4
            have hdm : ∃ m, walkFrom [] fs.root (filteredComps fs.currentPath) =
                Except.ok m ∧ isDirN m = true := by
              unfold isDirAt getNodeAtPath at hd
              rw [if_neg hcur] at hd
              rw [parsePath_abs fs.currentPath fs.currentPath hs] at hd
              cases hwk : walkFrom [] fs.root (filteredComps fs.currentPath) with
              | error e => rw [hwk] at hd; simp at hd
              | ok m =>
                  refine ⟨m, rfl, ?_⟩
                  rw [hwk] at hd
                  exact hd
            obtain ⟨m, hwk, hm⟩ := hdm
            obtain ⟨m2, hw2, hm2⟩ := walkFrom_dropLast _ [] _ _ hwk hm
            have hmem : ∀ x ∈ (filteredComps fs.currentPath).dropLast,
                x ≠ "" ∧ '/' ∉ x.data :=
              fun x hx => filteredComps_mem fs.currentPath x
                ((List.dropLast_sublist _).subset hx)
            have hrt : filteredComps
                ("/" ++ joinSlash (filteredComps fs.currentPath).dropLast) =
                (filteredComps fs.currentPath).dropLast := filteredComps_abs_join _ hmem
            refine ⟨?_, ?_⟩
            · show isDirAt ⟨fs.root, "/" ++ joinSlash (filteredComps fs.currentPath).dropLast⟩
                ("/" ++ joinSlash (filteredComps fs.currentPath).dropLast) = true
              unfold isDirAt getNodeAtPath
              by_cases hnp : ("/" ++ joinSlash (filteredComps fs.currentPath).dropLast) = "/"
              · rw [if_pos hnp]
                cases hcc : filteredComps fs.currentPath with
                | nil => rw [hcc] at h4; simp at h4
                | cons c cs =>
                    rw [hcc] at hwk
                    exact isDirN_of_walk _ _ _ _ hwk hm
              · rw [if_neg hnp]
                rw [parsePath_abs _ _ (strStarts_append_left "/" _ (by decide))]
                rw [hrt, hw2]
                exact hm2
            · exact strStarts_append_left "/" _ (by decide)
          · rw [if_neg h4] at h
            simp only [Prod.mk.injEq, Except.ok.injEq] at h
            obtain ⟨hm1, hm2⟩ := h
            subst hm2
            exact ⟨hd, hs⟩
        · rw [if_neg h3] at h
          cases hg : getNodeAtPath fs (cdTarget fs path) with
          | error e => rw [hg] at h; simp at h
          | ok node =>
              simp only [hg] at h
              by_cases hni : isDirN node
              · rw [if_pos hni] at h
                simp only [Prod.mk.injEq, Except.ok.injEq] at h
                obtain ⟨hm1, hm2⟩ := h
                subst hm2
                have hts := cdTarget_starts fs path hs
                refine ⟨?_, hts⟩
                show isDirAt ⟨fs.root, cdTarget fs path⟩ (cdTarget fs path) = true
                unfold isDirAt
                rw [getNodeAtPath_cursor fs.root (cdTarget fs path) fs.currentPath
                  (cdTarget fs path) hts]
                rw [show (⟨fs.root, fs.currentPath⟩ : VFS) = fs from rfl]
                rw [hg]
                exact hni
              · rw [if_neg hni] at h; simp at h
  · intro fs now path content
    unfold createFile
    cases hm : modifyAtParent
        (createFileF now (mkBasename (parsePath fs.currentPath path)) content)
        fs.root (parsePath fs.currentPath path).dropLast with
    | error e => simp [hm]
    | ok pr => obtain ⟨a, b⟩ := pr; simp [hm]
  · intro fs now path content
    unfold writeFile
    cases hm : modifyAtParent
        (writeFileF now (mkBasename (parsePath fs.currentPath path)) content)
        fs.root (parsePath fs.currentPath path).dropLast with
    | error e => simp [hm]
    | ok pr => obtain ⟨a, b⟩ := pr; simp [hm]
  · intro fs path recursive
    unfold remove
    cases hm : modifyAtParent
        (removeF (mkBasename (parsePath fs.currentPath path)) recursive)
        fs.root (parsePath fs.currentPath path).dropLast with
    | error e => simp [hm]
    | ok pr => obtain ⟨a, b⟩ := pr; simp [hm]
  · intro fs now path
    unfold makeDirectory
    cases hm : modifyAtParent (makeDirF now (mkBasename (parsePath fs.currentPath path)))
        fs.root (parsePath fs.currentPath path).dropLast with
    | error e => simp [hm]
    | ok pr => obtain ⟨a, b⟩ := pr; simp [hm]
  · intro fs path mode
    unfold changePermissions
    cases hg : getNodeAtPath fs path with
    | error e => rfl
    | ok node =>
        dsimp only
        split
        · rfl
        · split
          · rfl
          · rfl

/-- Witness for C1 at `changeDirectory seedFS "~"`. -/
theorem C1_cursor_validity_witness :
    isDirAt (changeDirectory seedFS "~").2 (changeDirectory seedFS "~").2.currentPath
      = true ∧
    strStarts (changeDirectory seedFS "~").2.currentPath "/" = true :=
  C1_cursor_validity.1 seedFS "~" "Changed to /home/user"
    (changeDirectory seedFS "~").2 rfl rfl rfl (fun _ => rfl)

/-- Counterexample to claim C7: the pattern `a.txt` should, as a glob-lite
pattern, match only the literal name `a.txt`; but the source feeds `.`
unescaped into the regex, so `findFiles` also returns a file named `axtxt`. -/
theorem C7_cx :
    findFiles axtxtFS "/" "a.txt" = Except.ok ["/axtxt"] ∧
    specGlobLite "a.txt".data "axtxt".data = false ∧
    matchPat "a.txt".data "axtxt".data = true :=
  ⟨rfl, by decide, by decide⟩

/-- Claim C7 as amended and scoped to the model: for patterns made of the
modelled alphabet — literal characters with no regex meaning plus `*`, `?`
and `.` (`modelledPat`; such patterns always compile, so the source's
`new RegExp` `catch` branch cannot fire) — and trees whose entry names
contain no line terminators (`nlFreeName`, which JS `.`/`.*` refuse to
match), `findFiles` recursively tests each descendant's entry *name*
against the translated pattern in which `*` matches any run of characters
and `?` — but also the unescaped regex metacharacter `.` — matches exactly
one character, returning the paths of all matches at any depth; on the
spec's example (`/x/a.txt`, `/x/y/b.txt`, `/x/y/c.md`)
`findFiles("/x", "*.txt")` returns exactly `["/x/a.txt", "/x/y/b.txt"]`. -/
theorem C7_find_glob :
    findFiles exFindFS "/x" "*.txt" = Except.ok ["/x/a.txt", "/x/y/b.txt"] ∧
    ∀ (fs : VFS) (startDir pattern : String) (l : List String),
      findFiles fs startDir pattern = Except.ok l →
      modelledPat pattern = true →
      ∃ n, getNodeAtPath fs startDir = Except.ok n ∧ isDirN n = true ∧
        (descendNamesOk n (if startDir = "/" then "/" else startDir) = true →
          l = ((descendN n (if startDir = "/" then "/" else startDir)).filter
            (fun x => matchPat pattern.data x.1.data)).map (fun x => x.2)) := by
  constructor
  · rfl
  · intro fs startDir pattern l h hmp
    unfold findFiles at h
    cases hg : getNodeAtPath fs startDir with
    | error e => rw [hg] at h; simp at h
    | ok n =>
        simp only [hg] at h
        by_cases hd : isDirN n
        · rw [if_pos hd] at h
          simp only [Except.ok.injEq] at h
          refine ⟨n, rfl, hd, fun _ => ?_⟩
          rw [← h]
          exact findAll_filter (fun name => matchPat pattern.data name.data) n
            (if startDir = "/" then "/" else startDir)
        · rw [if_neg hd] at h
          exact Except.noConfusion h

/-- Witness for C7's general clause at the example state: `*.txt` is a
modelled pattern and every name in the example tree is line-terminator
free. -/
theorem C7_find_glob_witness :
    (∃ n, getNodeAtPath exFindFS "/x" = Except.ok n ∧ isDirN n = true ∧
      (descendNamesOk n (if "/x" = "/" then "/" else "/x") = true →
        ["/x/a.txt", "/x/y/b.txt"] =
          ((descendN n (if "/x" = "/" then "/" else "/x")).filter
            (fun x => matchPat "*.txt".data x.1.data)).map (fun x => x.2))) ∧
    modelledPat "*.txt" = true ∧
    descendNamesOk (Node.dir exXCh none none none none) "/x" = true :=
  ⟨C7_find_glob.2 exFindFS "/x" "*.txt" ["/x/a.txt", "/x/y/b.txt"] rfl (by decide),
    by decide, by decide⟩

/-- Claim C2 is refuted by the code (a slip `_restoreDates` is documented
not to make): `_loadFromLocalStorage` runs `_restoreDates` on the
`{'/': root}` *wrapper* object, which has no `type` field, so the recursion
never starts and every `created`/`modified` in the loaded tree stays an ISO
string instead of a restored timestamp: the seeded `welcome.txt` comes back
with `created = str`, while the original held `date`.  Applying
`_restoreDates` to the root *node* itself (what the doc comment describes)
would restore the date. -/
theorem C2_load_not_roundtrip :
    loadSaved seedRoot "/home/user" =
      (jsonRound (fileSystemJVal seedRoot), "/home/user") ∧
    jpath (loadSaved seedRoot "/home/user").1
      ["/", "children", "home", "children", "user", "children", "welcome.txt", "created"] =
      some (JVal.str (isoOf 0)) ∧
    jpath (fileSystemJVal seedRoot)
      ["/", "children", "home", "children", "user", "children", "welcome.txt", "created"] =
      some (JVal.date 0) ∧
    ¬ (JVal.str (isoOf 0) = JVal.date 0) ∧
    jpath (restoreDates (jsonRound (toJVal seedRoot)))
      ["children", "home", "children", "user", "children", "welcome.txt", "created"] =
      some (JVal.date 0) :=
  ⟨rfl, rfl, rfl, fun hcontra => JVal.noConfusion hcontra, rfl⟩
